import Mathlib

/-!
Shallow embedding of the `ccw` blockchain tracer (`src/tracer.js`) and proofs of the
spec's testable properties about it.

Modelling conventions:
* JavaScript strings are Lean `String`s; `toLowerCase()` is `jsToLower`
  (character-wise `Char.toLower`, the same folding as `String.toLower`, written so
  that the kernel can evaluate it).
* The external Ledger Source (`_fetchAddressTransactions`) is a parameter
  `Ledger : String → Nat → Except String (List Tx)`; a JavaScript exception is the
  `.error` case, carrying the message.
* A possibly-absent JavaScript value (`tx.from`, `tx.to` are truthiness-checked in the
  source) is an `Option`.
* JavaScript `Map` (insertion ordered, keyed by the raw string) is an association list
  kept in insertion order; `Set` is a duplicate-free list.
* Decimal amounts (`parseFloat` results and their sums) are modelled as exact decimals
  `Dec` (mantissa and decimal exponent) rather than binary floating point; no claim
  below depends on float rounding.
-/

/-- JavaScript `s.toLowerCase()`: character-wise lowering. -/
def jsToLower (s : String) : String := ⟨s.data.map Char.toLower⟩

/-- A transaction record as supplied by the Ledger Source. `from`/`to` are optional
because `_traceRecursive` and `_findPaths` truthiness-check them before use. -/
structure Tx where
  hash : String
  fromAddr : Option String
  toAddr : Option String
  value : String
  timestamp : Nat
deriving DecidableEq, Repr

/-- The Ledger Source: `_fetchAddressTransactions(address, limit)`, which may fail. -/
def Ledger : Type := String → Nat → Except String (List Tx)

/-- Resolved tracer configuration (the fields of `this.config`). -/
structure TracerConfig where
  network : String
  maxDepth : Nat
  maxTransactionsPerAddress : Nat
  maxTransactionsForPaths : Nat
deriving DecidableEq, Repr

/-- Raw constructor argument for `new BlockchainTracer(config)`; `none` models an
absent property. -/
structure TracerConfigInput where
  network : Option String := none
  maxDepth : Option Nat := none
  maxTransactionsPerAddress : Option Nat := none
  maxTransactionsForPaths : Option Nat := none
deriving DecidableEq, Repr

/-- JavaScript `x || d` for an optional string (empty string is falsy). -/
def jsOrStr (x : Option String) (d : String) : String :=
  match x with
  | some s => if s = "" then d else s
  | none => d

/-- JavaScript `x || d` for an optional number (0 is falsy). -/
def jsOrNat (x : Option Nat) (d : Nat) : Nat :=
  match x with
  | some n => if n = 0 then d else n
  | none => d

/-- The `BlockchainTracer` constructor: each config field defaulted with `||`. -/
def mkConfig (c : TracerConfigInput) : TracerConfig :=
  { network := jsOrStr c.network "ethereum"
    maxDepth := jsOrNat c.maxDepth 5
    maxTransactionsPerAddress := jsOrNat c.maxTransactionsPerAddress 10
    maxTransactionsForPaths := jsOrNat c.maxTransactionsForPaths 5 }

/-- A graph node: `{ address, depth, type }` with `type` either `"origin"` or
`"intermediary"`, exactly as built at `tracer.js:162-166`. -/
structure Node where
  address : String
  depth : Nat
  type : String
deriving DecidableEq, Repr

/-- A graph edge: `{ from, to, value, hash, timestamp }` (`tracer.js:174-180`). -/
structure Edge where
  fromAddr : String
  toAddr : String
  value : String
  hash : String
  timestamp : Nat
deriving DecidableEq, Repr

/-- The graph under construction: the node `Map` (insertion-ordered, keyed by the raw
address string) and the edge array. -/
structure BuildGraph where
  nodes : List (String × Node)
  edges : List Edge
deriving DecidableEq, Repr

/-- `graph.nodes.has(address)` on the association-list model of a JS `Map`. -/
def nodesHas (nodes : List (String × Node)) (address : String) : Bool :=
  nodes.any (fun p => p.1 = address)

/-- `graph.nodes.set(address, node)` for a key not yet present (insertion order). -/
def nodesSet (nodes : List (String × Node)) (address : String) (n : Node) :
    List (String × Node) :=
  nodes ++ [(address, n)]

/-- The edge record pushed for an outgoing match (`tracer.js:174-180`): `from`/`to`
are the transaction's own (present) endpoints. -/
def mkEdge (f t : String) (tx : Tx) : Edge :=
  { fromAddr := f, toAddr := t, value := tx.value, hash := tx.hash
    timestamp := tx.timestamp }

mutual

/-- `_traceRecursive(address, graph, currentDepth, maxDepth, direction)`
(`tracer.js:153-207`): guard on depth, guard on node presence, insert the node,
fetch (failure caught: treated as no transactions), then iterate the first
`maxTransactionsPerAddress` records. -/
def traceRecursive (cfg : TracerConfig) (ledger : Ledger) (direction : String)
    (maxDepth : Nat) (address : String) (currentDepth : Nat) (g : BuildGraph) :
    BuildGraph :=
  if _h : currentDepth ≥ maxDepth then g
  else if nodesHas g.nodes address then g
  else
    let node : Node :=
      { address := address, depth := currentDepth
        type := if currentDepth = 0 then "origin" else "intermediary" }
    let g1 : BuildGraph := { g with nodes := nodesSet g.nodes address node }
    match ledger address 1 with
    | .error _ => g1
    | .ok transactions =>
        traceLoop cfg ledger direction maxDepth address currentDepth
          (transactions.take cfg.maxTransactionsPerAddress) g1
termination_by (maxDepth + 1 - currentDepth, 0)

/-- The `for (const tx of transactions.slice(...))` loop of `_traceRecursive`:
for each record, the outgoing block then the incoming block. -/
def traceLoop (cfg : TracerConfig) (ledger : Ledger) (direction : String)
    (maxDepth : Nat) (address : String) (currentDepth : Nat) (txs : List Tx)
    (g : BuildGraph) : BuildGraph :=
  match txs with
  | [] => g
  | tx :: rest =>
      traceLoop cfg ledger direction maxDepth address currentDepth rest
        (traceInBlock cfg ledger direction maxDepth address currentDepth tx
          (traceOutBlock cfg ledger direction maxDepth address currentDepth tx g))
termination_by (maxDepth - currentDepth, 2 * txs.length)

/-- The outgoing block (`tracer.js:172-186`): under an `out`/`both` filter, a
record whose present `from` case-equals the current address and whose `to` is
present appends an edge and, if depth allows, recurses into `to`. -/
def traceOutBlock (cfg : TracerConfig) (ledger : Ledger) (direction : String)
    (maxDepth : Nat) (address : String) (currentDepth : Nat) (tx : Tx)
    (g : BuildGraph) : BuildGraph :=
  if direction = "out" ∨ direction = "both" then
    match tx.fromAddr, tx.toAddr with
    | some f, some t =>
      if jsToLower f = jsToLower address then
        let g' : BuildGraph := { g with edges := g.edges ++ [mkEdge f t tx] }
        if currentDepth + 1 < maxDepth then
          traceRecursive cfg ledger direction maxDepth t (currentDepth + 1) g'
        else g'
      else g
    | _, _ => g
  else g
termination_by (maxDepth - currentDepth, 1)

/-- The incoming block (`tracer.js:188-202`): under an `in`/`both` filter, a
record whose present `to` case-equals the current address and whose `from` is
present appends an edge and, if depth allows, recurses into `from`. -/
def traceInBlock (cfg : TracerConfig) (ledger : Ledger) (direction : String)
    (maxDepth : Nat) (address : String) (currentDepth : Nat) (tx : Tx)
    (g : BuildGraph) : BuildGraph :=
  if direction = "in" ∨ direction = "both" then
    match tx.fromAddr, tx.toAddr with
    | some f, some t =>
      if jsToLower t = jsToLower address then
        let g' : BuildGraph := { g with edges := g.edges ++ [mkEdge f t tx] }
        if currentDepth + 1 < maxDepth then
          traceRecursive cfg ledger direction maxDepth f (currentDepth + 1) g'
        else g'
      else g
    | _, _ => g
  else g
termination_by (maxDepth - currentDepth, 1)

end

/-- An exact decimal `mant / 10 ^ exp`, the embedding's stand-in for the JavaScript
numbers produced by `parseFloat` and their sums. -/
structure Dec where
  mant : Int
  exp : Nat
deriving DecidableEq, Repr

/-- Decimal addition (common denominator `10 ^ max`). -/
def decAdd (a b : Dec) : Dec :=
  let e := max a.exp b.exp
  ⟨a.mant * (10 : Int) ^ (e - a.exp) + b.mant * (10 : Int) ^ (e - b.exp), e⟩

/-- Decimal subtraction. -/
def decSub (a b : Dec) : Dec :=
  let e := max a.exp b.exp
  ⟨a.mant * (10 : Int) ^ (e - a.exp) - b.mant * (10 : Int) ^ (e - b.exp), e⟩

/-- `c` is an ASCII digit. -/
def isDigitChar (c : Char) : Bool := 48 ≤ c.toNat && c.toNat ≤ 57

/-- Numeric value of an ASCII digit. -/
def digitVal (c : Char) : Nat := c.toNat - 48

/-- Longest digit prefix of a character list, and the remainder. -/
def takeDigits : List Char → List Char × List Char
  | [] => ([], [])
  | c :: cs =>
    if isDigitChar c then
      let p := takeDigits cs
      (c :: p.1, p.2)
    else ([], c :: cs)

/-- Value of a digit string, most significant first. -/
def digitsVal (ds : List Char) : Nat := ds.foldl (fun a c => a * 10 + digitVal c) 0

/-- Model of JavaScript `parseFloat`: optional sign, integer digits, optional
fractional digits; `none` is `NaN` (no digits at all). Exponent notation and other
`parseFloat` niceties never arise in this code base's data and are not modelled. -/
def jsParseFloat (s : String) : Option Dec :=
  let p : Bool × List Char :=
    match s.data with
    | '-' :: cs => (true, cs)
    | '+' :: cs => (false, cs)
    | cs => (false, cs)
  let ip := takeDigits p.2
  let fp : List Char × List Char :=
    match ip.2 with
    | '.' :: cs2 => takeDigits cs2
    | _ => ([], ip.2)
  if ip.1.length + fp.1.length = 0 then none
  else
    let m : Nat := digitsVal ip.1 * 10 ^ fp.1.length + digitsVal fp.1
    some ⟨if p.1 then -(m : Int) else (m : Int), fp.1.length⟩

/-- JavaScript `parseFloat(v) || 0`: `NaN` and numeric zero both collapse to `0`. -/
def jsParseFloatOrZero (s : String) : Dec :=
  match jsParseFloat s with
  | some d => if d.mant = 0 then ⟨0, 0⟩ else d
  | none => ⟨0, 0⟩

/-- The `metadata` object attached to a graph (`tracer.js:37-41`); the construction
timestamp (`new Date().toISOString()`) is an input of the embedding. -/
structure GraphMetadata where
  network : String
  depth : Nat
  timestamp : String
deriving DecidableEq, Repr

/-- The `summary` object computed by `_formatGraph` (`tracer.js:292-296`). -/
structure GraphSummary where
  nodeCount : Nat
  edgeCount : Nat
  totalValue : Dec
deriving DecidableEq, Repr

/-- The formatted graph returned by `traceFromAddress` (`tracer.js:286-298`). -/
structure FormattedGraph where
  nodes : List Node
  edges : List Edge
  startAddress : String
  metadata : GraphMetadata
  summary : GraphSummary
deriving DecidableEq, Repr

/-- `_formatGraph(graph)`: node values in insertion order, the edge list, and the
derived summary (edge values summed with unparsable values as 0). -/
def formatGraph (g : BuildGraph) (startAddress : String) (metadata : GraphMetadata) :
    FormattedGraph :=
  { nodes := g.nodes.map Prod.snd
    edges := g.edges
    startAddress := startAddress
    metadata := metadata
    summary :=
      { nodeCount := g.nodes.length
        edgeCount := g.edges.length
        totalValue :=
          g.edges.foldl (fun s e => decAdd s (jsParseFloatOrZero e.value)) ⟨0, 0⟩ } }

/-- The `options` argument of `traceFromAddress`. -/
structure TraceOptions where
  depth : Option Nat := none
  direction : Option String := none
deriving DecidableEq, Repr

/-- `traceFromAddress(address, options)` (`tracer.js:23-47`): validate, resolve
`depth`/`direction` with `||` defaulting, build recursively from depth 0 and format.
`_validateAddress` throws only for an empty (or non-string) address; the
Ethereum-format check merely warns. -/
def traceFromAddress (cfg : TracerConfig) (ledger : Ledger) (nowIso : String)
    (address : String) (options : TraceOptions) : Except String FormattedGraph :=
  if address = "" then .error "Address must be a non-empty string"
  else
    let depth := jsOrNat options.depth cfg.maxDepth
    let direction := jsOrStr options.direction "both"
    let g := traceRecursive cfg ledger direction depth address 0 ⟨[], []⟩
    .ok (formatGraph g address ⟨cfg.network, depth, nowIso⟩)

/-- The flow summary object of `_getAddressFlow` (`tracer.js:118-125`). `netFlow` is
`none` exactly when the field was never assigned (it is absent from the initial
object and only set after a successful fetch). -/
structure AddressFlow where
  address : String
  incoming : List Tx
  outgoing : List Tx
  totalIn : Dec
  totalOut : Dec
  transactionCount : Nat
  netFlow : Option Dec
deriving DecidableEq, Repr

/-- One iteration of the `transactions.forEach` in `_getAddressFlow`
(`tracer.js:130-139`): the incoming test, then the outgoing test (both can match a
self-transfer). -/
def flowStep (address : String) (fl : AddressFlow) (tx : Tx) : AddressFlow :=
  let fl1 : AddressFlow :=
    match tx.toAddr with
    | some t =>
      if jsToLower t = jsToLower address then
        { fl with incoming := fl.incoming ++ [tx]
                  totalIn := decAdd fl.totalIn (jsParseFloatOrZero tx.value) }
      else fl
    | none => fl
  match tx.fromAddr with
  | some f =>
    if jsToLower f = jsToLower address then
      { fl1 with outgoing := fl1.outgoing ++ [tx]
                 totalOut := decAdd fl1.totalOut (jsParseFloatOrZero tx.value) }
    else fl1
  | none => fl1

/-- `_getAddressFlow(address, depth)` (`tracer.js:117-148`): on fetch failure the
initial object is returned unchanged (so `netFlow` stays unset); on success the
transactions are classified and `transactionCount`/`netFlow` are filled in. -/
def getAddressFlow (ledger : Ledger) (address : String) (depth : Nat) : AddressFlow :=
  let flow0 : AddressFlow :=
    { address := address, incoming := [], outgoing := [], totalIn := ⟨0, 0⟩
      totalOut := ⟨0, 0⟩, transactionCount := 0, netFlow := none }
  match ledger address depth with
  | .error _ => flow0
  | .ok transactions =>
    let fl := transactions.foldl (flowStep address) flow0
    { fl with transactionCount := transactions.length
              netFlow := some (decSub fl.totalIn fl.totalOut) }

/-- The mutable state threaded through `_findPaths`: the `visited` set (of
lower-cased addresses) and the `paths` accumulator. -/
structure PathState where
  visited : List String
  paths : List (List String)
deriving DecidableEq, Repr

/-- JS `Set.add` (no duplicates, insertion order). -/
def setAdd (v : List String) (a : String) : List String := if a ∈ v then v else v ++ [a]

/-- JS `Set.delete`. -/
def setDelete (v : List String) (a : String) : List String := v.filter (fun x => x ≠ a)

mutual

/-- `_findPaths(current, target, path, visited, paths, depth, maxDepth)`
(`tracer.js:212-240`): termination guards (depth, and the hard global cap of 10
discovered paths), target test, backtracking visited-set around the loop over the
first `maxTransactionsForPaths` fetched records (fetch failure caught: dead end). -/
def findPaths (cfg : TracerConfig) (ledger : Ledger) (target : String)
    (maxDepth : Nat) (current : String) (path : List String) (depth : Nat)
    (st : PathState) : PathState :=
  if _h : depth ≥ maxDepth ∨ st.paths.length ≥ 10 then st
  else if jsToLower current = jsToLower target then
    { st with paths := st.paths ++ [path] }
  else
    let st1 : PathState := { st with visited := setAdd st.visited (jsToLower current) }
    let st2 : PathState :=
      match ledger current 1 with
      | .error _ => st1
      | .ok transactions =>
          pathsLoop cfg ledger target maxDepth current path depth
            (transactions.take cfg.maxTransactionsForPaths) st1
    { st2 with visited := setDelete st2.visited (jsToLower current) }
termination_by (maxDepth + 1 - depth, 0)

/-- The `for (const tx of transactions.slice(...))` loop of `_findPaths`. -/
def pathsLoop (cfg : TracerConfig) (ledger : Ledger) (target : String)
    (maxDepth : Nat) (current : String) (path : List String) (depth : Nat)
    (txs : List Tx) (st : PathState) : PathState :=
  match txs with
  | [] => st
  | tx :: rest =>
      pathsLoop cfg ledger target maxDepth current path depth rest
        (pathsStep cfg ledger target maxDepth current path depth tx st)
termination_by (maxDepth - depth, 2 * txs.length)

/-- One iteration of that loop: only an outgoing match is followed, and only into
a destination not in the visited set. -/
def pathsStep (cfg : TracerConfig) (ledger : Ledger) (target : String)
    (maxDepth : Nat) (current : String) (path : List String) (depth : Nat)
    (tx : Tx) (st : PathState) : PathState :=
  match tx.fromAddr, tx.toAddr with
  | some f, some t =>
    if jsToLower f = jsToLower current then
      if jsToLower t ∈ st.visited then st
      else findPaths cfg ledger target maxDepth t (path ++ [t]) (depth + 1) st
    else st
  | _, _ => st
termination_by (maxDepth - depth, 1)

end

/-- The object returned by `tracePath` (`tracer.js:102-108`). -/
structure PathResult where
  fromAddr : String
  toAddr : String
  paths : List (List String)
  pathCount : Nat
  network : String
deriving DecidableEq, Repr

/-- `tracePath(fromAddress, toAddress)` (`tracer.js:91-109`): validate both
addresses, then search with the hardcoded `maxDepth = 5`. -/
def tracePath (cfg : TracerConfig) (ledger : Ledger)
    (fromAddress toAddress : String) : Except String PathResult :=
  if fromAddress = "" then .error "Address must be a non-empty string"
  else if toAddress = "" then .error "Address must be a non-empty string"
  else
    let st := findPaths cfg ledger toAddress 5 fromAddress [fromAddress] 0 ⟨[], []⟩
    .ok { fromAddr := fromAddress, toAddr := toAddress, paths := st.paths
          pathCount := st.paths.length, network := cfg.network }

/-! ### The JSON value space, printer and parser

`exportGraph(graph, 'json')` is `JSON.stringify(graph, null, 2)`; the CLI parses the
produced text back with `JSON.parse`. Both builtins are modelled here: `Json` is the
value space, `renderJson` reproduces `JSON.stringify`'s two-space pretty format, and
`jsonParse` is a standard recursive-descent reader for it. JSON numbers are `Dec`
(read positionally: digits and decimal-point place). -/

/-- JSON values as produced by the exporter (booleans and `null` never occur in a
formatted graph and are not modelled). -/
inductive Json where
  | str : String → Json
  | num : Dec → Json
  | arr : List Json → Json
  | obj : List (String × Json) → Json

/-- Decimal digits of `n`, most significant first. -/
def natToDigits (n : Nat) : List Char :=
  if _h : n < 10 then [Char.ofNat (48 + n)]
  else natToDigits (n / 10) ++ [Char.ofNat (48 + n % 10)]
termination_by n
decreasing_by exact Nat.div_lt_self (by omega) (by omega)

/-- Rendering of a JSON number: sign, integer digits, then `exp` fractional digits
(zero-padded) when `exp > 0`. -/
def decRender (d : Dec) : List Char :=
  let a := d.mant.natAbs
  let sign : List Char := if d.mant < 0 then ['-'] else []
  if d.exp = 0 then sign ++ natToDigits a
  else
    let fd := natToDigits (a % 10 ^ d.exp)
    sign ++ natToDigits (a / 10 ^ d.exp) ++
      '.' :: (List.replicate (d.exp - fd.length) '0' ++ fd)

/-- Lower-case hex digit. -/
def hexDigitChar (n : Nat) : Char :=
  if n < 10 then Char.ofNat (48 + n) else Char.ofNat (87 + n)

/-- `JSON.stringify`'s escaping of one string character. -/
def escapeChar (c : Char) : List Char :=
  if c = '"' then ['\\', '"']
  else if c = '\\' then ['\\', '\\']
  else if c = '\n' then ['\\', 'n']
  else if c = '\t' then ['\\', 't']
  else if c = '\r' then ['\\', 'r']
  else if c.toNat = 8 then ['\\', 'b']
  else if c.toNat = 12 then ['\\', 'f']
  else if c.toNat < 32 then
    ['\\', 'u', '0', '0', hexDigitChar (c.toNat / 16), hexDigitChar (c.toNat % 16)]
  else [c]

/-- Escaping of a whole string. -/
def escapeList : List Char → List Char
  | [] => []
  | c :: cs => escapeChar c ++ escapeList cs

/-- Two-space indentation at nesting level `k`. -/
def indentChars (k : Nat) : List Char := List.replicate (2 * k) ' '

mutual

/-- `JSON.stringify(v, null, 2)` at nesting level `k` (no trailing newline). -/
def renderJson : Json → Nat → List Char
  | .str s, _ => '"' :: (escapeList s.data ++ ['"'])
  | .num d, _ => decRender d
  | .arr [], _ => ['[', ']']
  | .arr (x :: xs), k =>
      '[' :: '\n' :: (indentChars (k+1) ++ renderElems (x :: xs) (k+1) ++
        '\n' :: (indentChars k ++ [']']))
  | .obj [], _ => ['\x7b', '\x7d']
  | .obj (f :: fs), k =>
      '\x7b' :: '\n' :: (indentChars (k+1) ++ renderFields (f :: fs) (k+1) ++
        '\n' :: (indentChars k ++ ['\x7d']))
termination_by j _ => sizeOf j

/-- Array elements, comma-and-newline separated, later elements indented. -/
def renderElems : List Json → Nat → List Char
  | [], _ => []
  | [x], k => renderJson x k
  | x :: y :: ys, k =>
      renderJson x k ++ ',' :: '\n' :: (indentChars k ++ renderElems (y :: ys) k)
termination_by xs _ => sizeOf xs

/-- One object member: quoted key, colon, space, value. -/
def renderField : String × Json → Nat → List Char
  | (key, v), k => '"' :: (escapeList key.data ++ '"' :: ':' :: ' ' :: renderJson v k)
termination_by f _ => sizeOf f

/-- Object members, comma-and-newline separated. -/
def renderFields : List (String × Json) → Nat → List Char
  | [], _ => []
  | [f], k => renderField f k
  | f :: g :: gs, k =>
      renderField f k ++ ',' :: '\n' :: (indentChars k ++ renderFields (g :: gs) k)
termination_by fs _ => sizeOf fs

end

/-- JSON insignificant whitespace. -/
def isWsChar (c : Char) : Bool := c = ' ' || c = '\n' || c = '\t' || c = '\r'

/-- Drop leading whitespace. -/
def skipWs : List Char → List Char
  | [] => []
  | c :: cs => if isWsChar c then skipWs cs else c :: cs

/-- Value of a hex digit (either case). -/
def hexVal (c : Char) : Option Nat :=
  if 48 ≤ c.toNat ∧ c.toNat ≤ 57 then some (c.toNat - 48)
  else if 97 ≤ c.toNat ∧ c.toNat ≤ 102 then some (c.toNat - 87)
  else if 65 ≤ c.toNat ∧ c.toNat ≤ 70 then some (c.toNat - 55)
  else none

/-- Decoding of a single-character escape. -/
def escDecode (e : Char) : Option Char :=
  if e = '"' then some '"'
  else if e = '\\' then some '\\'
  else if e = '/' then some '/'
  else if e = 'b' then some (Char.ofNat 8)
  else if e = 'f' then some (Char.ofNat 12)
  else if e = 'n' then some '\n'
  else if e = 'r' then some '\r'
  else if e = 't' then some '\t'
  else none

/-- Read a string body after the opening quote; yields the contents and the
text after the closing quote. -/
def parseStringBody : List Char → Option (List Char × List Char)
  | [] => none
  | c :: cs =>
    if c = '"' then some ([], cs)
    else if c = '\\' then
      match cs with
      | [] => none
      | e :: cs2 =>
        if e = 'u' then
          match cs2 with
          | h1 :: h2 :: h3 :: h4 :: cs3 =>
            match hexVal h1, hexVal h2, hexVal h3, hexVal h4 with
            | some a, some b, some c3, some d =>
              let n := ((a * 16 + b) * 16 + c3) * 16 + d
              if 0xd800 ≤ n ∧ n < 0xe000 then none
              else
                match parseStringBody cs3 with
                | some (s, r) => some (Char.ofNat n :: s, r)
                | none => none
            | _, _, _, _ => none
          | _ => none
        else
          match escDecode e with
          | some d =>
            match parseStringBody cs2 with
            | some (s, r) => some (d :: s, r)
            | none => none
          | none => none
    else
      match parseStringBody cs with
      | some (s, r) => some (c :: s, r)
      | none => none

/-- Does the text start with this character? -/
def headIs (c : Char) (cs : List Char) : Bool :=
  match cs with
  | c' :: _ => c' = c
  | [] => false

/-- Read a JSON number (sign, digits, optional fraction), positionally. -/
def parseNumber (cs : List Char) : Option (Dec × List Char) :=
  let sp : Bool × List Char :=
    if headIs '-' cs then (true, cs.tail) else (false, cs)
  let ip := takeDigits sp.2
  if ip.1.length = 0 then none
  else if headIs '.' ip.2 then
    let fp := takeDigits ip.2.tail
    if fp.1.length = 0 then none
    else
      let m : Nat := digitsVal ip.1 * 10 ^ fp.1.length + digitsVal fp.1
      some (⟨if sp.1 then -(m : Int) else (m : Int), fp.1.length⟩, fp.2)
  else
    let m : Nat := digitsVal ip.1
    some (⟨if sp.1 then -(m : Int) else (m : Int), 0⟩, ip.2)

mutual

/-- Read one JSON value (fuelled recursive descent). -/
def parseValue : Nat → List Char → Option (Json × List Char)
  | 0, _ => none
  | fuel + 1, cs =>
    match skipWs cs with
    | [] => none
    | c :: cs1 =>
      if c = '"' then
        match parseStringBody cs1 with
        | some (s, r) => some (.str ⟨s⟩, r)
        | none => none
      else if c = '[' then
        let cs2 := skipWs cs1
        if headIs ']' cs2 then some (.arr [], cs2.tail)
        else
          match parseElems fuel cs2 with
          | some (xs, r) => some (.arr xs, r)
          | none => none
      else if c = '\x7b' then
        let cs2 := skipWs cs1
        if headIs '\x7d' cs2 then some (.obj [], cs2.tail)
        else
          match parseFields fuel cs2 with
          | some (fs, r) => some (.obj fs, r)
          | none => none
      else if c = '-' ∨ isDigitChar c then
        match parseNumber (c :: cs1) with
        | some (d, r) => some (.num d, r)
        | none => none
      else none

/-- Read `value (',' value)* ']'` inside an array. -/
def parseElems : Nat → List Char → Option (List Json × List Char)
  | 0, _ => none
  | fuel + 1, cs =>
    match parseValue fuel cs with
    | none => none
    | some (x, r) =>
      match skipWs r with
      | ',' :: r2 =>
        match parseElems fuel r2 with
        | some (xs, r3) => some (x :: xs, r3)
        | none => none
      | ']' :: r2 => some ([x], r2)
      | _ => none

/-- Read the members of an object (key, colon, value, then a comma and more
members or the closing brace). -/
def parseFields : Nat → List Char → Option (List (String × Json) × List Char)
  | 0, _ => none
  | fuel + 1, cs =>
    match skipWs cs with
    | '"' :: cs1 =>
      match parseStringBody cs1 with
      | none => none
      | some (k, r) =>
        match skipWs r with
        | ':' :: r2 =>
          match parseValue fuel r2 with
          | none => none
          | some (v, r3) =>
            match skipWs r3 with
            | ',' :: r4 =>
              match parseFields fuel r4 with
              | some (fs, r5) => some ((⟨k⟩, v) :: fs, r5)
              | none => none
            | '\x7d' :: r4 => some ([(⟨k⟩, v)], r4)
            | _ => none
        | _ => none
    | _ => none

end

/-- `JSON.parse` on a complete document: one value and trailing whitespace only. -/
def jsonParse (s : String) : Option Json :=
  match parseValue (s.data.length + 1) s.data with
  | some (j, rest) => if skipWs rest = [] then some j else none
  | none => none

/-- The JSON value of a node object (field order as in `tracer.js:162-166`). -/
def nodeJson (n : Node) : Json :=
  .obj [("address", .str n.address), ("depth", .num ⟨(n.depth : Int), 0⟩),
        ("type", .str n.type)]

/-- The JSON value of an edge object (field order as in `tracer.js:174-180`). -/
def edgeJson (e : Edge) : Json :=
  .obj [("from", .str e.fromAddr), ("to", .str e.toAddr), ("value", .str e.value),
        ("hash", .str e.hash), ("timestamp", .num ⟨(e.timestamp : Int), 0⟩)]

/-- The JSON value `JSON.stringify` serializes for a formatted graph: the object
literal of `_formatGraph` (`tracer.js:286-298`), fields in insertion order. -/
def graphJson (g : FormattedGraph) : Json :=
  .obj [("nodes", .arr (g.nodes.map nodeJson)),
        ("edges", .arr (g.edges.map edgeJson)),
        ("startAddress", .str g.startAddress),
        ("metadata", .obj [("network", .str g.metadata.network),
                           ("depth", .num ⟨(g.metadata.depth : Int), 0⟩),
                           ("timestamp", .str g.metadata.timestamp)]),
        ("summary", .obj [("nodeCount", .num ⟨(g.summary.nodeCount : Int), 0⟩),
                          ("edgeCount", .num ⟨(g.summary.edgeCount : Int), 0⟩),
                          ("totalValue", .num g.summary.totalValue)])]

/-- Field lookup on a parsed JSON object. -/
def jsonField (j : Json) (key : String) : Option Json :=
  match j with
  | .obj fs => (fs.find? (fun f => f.1 = key)).map Prod.snd
  | _ => none

/-- Read a node record back out of parsed JSON. -/
def decodeNode : Json → Option Node
  | .obj [("address", .str a), ("depth", .num ⟨.ofNat d, 0⟩), ("type", .str t)] =>
      some ⟨a, d, t⟩
  | _ => none

/-- Read an edge record back out of parsed JSON. -/
def decodeEdge : Json → Option Edge
  | .obj [("from", .str f), ("to", .str t), ("value", .str v), ("hash", .str h),
          ("timestamp", .num ⟨.ofNat ts, 0⟩)] => some ⟨f, t, v, h, ts⟩
  | _ => none

/-- The node list of a parsed JSON graph document. -/
def decodeNodeList (j : Json) : Option (List Node) :=
  match jsonField j "nodes" with
  | some (.arr xs) => xs.mapM decodeNode
  | _ => none

/-- The edge list of a parsed JSON graph document. -/
def decodeEdgeList (j : Json) : Option (List Edge) :=
  match jsonField j "edges" with
  | some (.arr xs) => xs.mapM decodeEdge
  | _ => none

/-- One node statement of `_exportToDot` (`tracer.js:325-329`). -/
def dotNodeLine (n : Node) : String :=
  let label := n.address.take 10 ++ "..."
  let color := if n.type = "origin" then "lightblue" else "lightgray"
  "  \"" ++ n.address ++ "\" [label=\"" ++ label ++ "\", fillcolor=" ++ color ++
    ", style=filled];\n"

/-- One edge statement of `_exportToDot` (`tracer.js:334-337`). -/
def dotEdgeLine (e : Edge) : String :=
  "  \"" ++ e.fromAddr ++ "\" -> \"" ++ e.toAddr ++ "\" [label=\"" ++ e.value ++
    "\"];\n"

/-- `_exportToDot(graph)` (`tracer.js:319-341`). -/
def exportToDot (g : FormattedGraph) : String :=
  let dot := "digraph TransactionFlow \x7b\n" ++ "  rankdir=LR;\n" ++
    "  node [shape=box, style=rounded];\n\n"
  let dot := g.nodes.foldl (fun acc n => acc ++ dotNodeLine n) dot
  let dot := dot ++ "\n"
  let dot := g.edges.foldl (fun acc e => acc ++ dotEdgeLine e) dot
  dot ++ "\x7d\n"

/-- One CSV row of `_exportToCsv` (`tracer.js:349-351`); the numeric timestamp is
stringified in decimal as by a JS template literal. -/
def csvEdgeLine (e : Edge) : String :=
  e.fromAddr ++ "," ++ e.toAddr ++ "," ++ e.value ++ "," ++ e.hash ++ "," ++
    ⟨natToDigits e.timestamp⟩ ++ "\n"

/-- `_exportToCsv(graph)` (`tracer.js:346-354`). -/
def exportToCsv (g : FormattedGraph) : String :=
  g.edges.foldl (fun acc e => acc ++ csvEdgeLine e) "From,To,Value,Hash,Timestamp\n"

/-- `exportGraph(graph, format)` (`tracer.js:303-314`): `json`, `dot` and `csv`
succeed; any other token throws `Unsupported format: ...`. -/
def exportGraph (graph : FormattedGraph) (format : String) : Except String String :=
  match format with
  | "json" => .ok ⟨renderJson (graphJson graph) 0⟩
  | "dot" => .ok (exportToDot graph)
  | "csv" => .ok (exportToCsv graph)
  | _ => .error ("Unsupported format: " ++ format)

/-! ### Fuelled evaluation twins

`traceRecursive` and `findPaths` are defined by well-founded recursion, which the
kernel does not unfold, so closed instances cannot be settled by `decide` directly.
The following structurally recursive twins compute the same results (proved below)
and make concrete runs kernel-evaluable. -/

/-- Structurally recursive twin of `traceRecursive` (`fuel` bounds the remaining
recursion depth; any `fuel ≥ maxDepth - currentDepth` gives the same result). -/
def traceRecFuel (cfg : TracerConfig) (ledger : Ledger) (direction : String)
    (maxDepth : Nat) : Nat → String → Nat → BuildGraph → BuildGraph
  | 0, _, _, g => g
  | fuel + 1, address, currentDepth, g =>
    if currentDepth ≥ maxDepth then g
    else if nodesHas g.nodes address then g
    else
      let node : Node :=
        { address := address, depth := currentDepth
          type := if currentDepth = 0 then "origin" else "intermediary" }
      let g1 : BuildGraph := { g with nodes := nodesSet g.nodes address node }
      match ledger address 1 with
      | .error _ => g1
      | .ok transactions =>
        (transactions.take cfg.maxTransactionsPerAddress).foldl (fun gacc tx =>
          let ga : BuildGraph :=
            if direction = "out" ∨ direction = "both" then
              match tx.fromAddr, tx.toAddr with
              | some f, some t =>
                if jsToLower f = jsToLower address then
                  let g' : BuildGraph :=
                    { gacc with edges := gacc.edges ++ [mkEdge f t tx] }
                  if currentDepth + 1 < maxDepth then
                    traceRecFuel cfg ledger direction maxDepth fuel t
                      (currentDepth + 1) g'
                  else g'
                else gacc
              | _, _ => gacc
            else gacc
          if direction = "in" ∨ direction = "both" then
            match tx.fromAddr, tx.toAddr with
            | some f, some t =>
              if jsToLower t = jsToLower address then
                let g' : BuildGraph :=
                  { ga with edges := ga.edges ++ [mkEdge f t tx] }
                if currentDepth + 1 < maxDepth then
                  traceRecFuel cfg ledger direction maxDepth fuel f
                    (currentDepth + 1) g'
                else g'
              else ga
            | _, _ => ga
          else ga) g1

/-- Structurally recursive twin of `findPaths`. -/
def findPathsFuel (cfg : TracerConfig) (ledger : Ledger) (target : String)
    (maxDepth : Nat) : Nat → String → List String → Nat → PathState → PathState
  | 0, _, _, _, st => st
  | fuel + 1, current, path, depth, st =>
    if depth ≥ maxDepth ∨ st.paths.length ≥ 10 then st
    else if jsToLower current = jsToLower target then
      { st with paths := st.paths ++ [path] }
    else
      let st1 : PathState := { st with visited := setAdd st.visited (jsToLower current) }
      let st2 : PathState :=
        match ledger current 1 with
        | .error _ => st1
        | .ok transactions =>
            (transactions.take cfg.maxTransactionsForPaths).foldl (fun stacc tx =>
              match tx.fromAddr, tx.toAddr with
              | some f, some t =>
                if jsToLower f = jsToLower current then
                  if jsToLower t ∈ stacc.visited then stacc
                  else
                    findPathsFuel cfg ledger target maxDepth fuel t (path ++ [t])
                      (depth + 1) stacc
                else stacc
              | _, _ => stacc) st1
      { st2 with visited := setDelete st2.visited (jsToLower current) }

/-! ### Verification predicates and concrete instances -/

/-- The keys of the node map are pairwise distinct (JS `Map` key uniqueness). -/
def keysNodup (g : BuildGraph) : Prop := (g.nodes.map Prod.fst).Nodup

/-- Every edge's `from` case-equals some node key of the graph. -/
def edgesFromVisited (g : BuildGraph) : Prop :=
  ∀ e ∈ g.edges, ∃ k ∈ g.nodes.map Prod.fst, jsToLower k = jsToLower e.fromAddr

/-- Every edge's `to` case-equals some node key of the graph. -/
def edgesToVisited (g : BuildGraph) : Prop :=
  ∀ e ∈ g.edges, ∃ k ∈ g.nodes.map Prod.fst, jsToLower k = jsToLower e.toAddr

/-- Shape of every node record inserted at recursion depth `dlow` or deeper in a
traversal capped at `m`. -/
def newNodesOk (dlow m : Nat) (l : List (String × Node)) : Prop :=
  ∀ p ∈ l, p.2.address = p.1 ∧ dlow ≤ p.2.depth ∧ p.2.depth < m ∧
    p.2.type = (if p.2.depth = 0 then "origin" else "intermediary")

/-- Everything one traversal segment (from graph `g` to graph `g'`) preserves or
establishes: nodes and edges are append-only, appended nodes are well-shaped for
depths `≥ dlow`, key uniqueness is preserved, and under a one-sided direction
filter every appended edge's near endpoint is an already-recorded key. -/
def gstep (direction : String) (dlow m : Nat) (g g' : BuildGraph) : Prop :=
  (∃ l, g'.nodes = g.nodes ++ l ∧ newNodesOk dlow m l) ∧
  (∃ l, g'.edges = g.edges ++ l) ∧
  (keysNodup g → keysNodup g') ∧
  (direction = "out" → edgesFromVisited g → edgesFromVisited g') ∧
  (direction = "in" → edgesToVisited g → edgesToVisited g')

/-- `ledger` with address `bad`'s answer replaced by an empty transaction list. -/
def patchLedger (ledger : Ledger) (bad : String) : Ledger :=
  fun a limit => if a = bad then .ok [] else ledger a limit

/-- The default tracer configuration (`new BlockchainTracer()`). -/
def cfgT : TracerConfig := mkConfig {}

/-- Ledger for the duplicate-node counterexample: the seed pays two addresses that
differ only in letter case. -/
def led1 : Ledger := fun a _ =>
  if a = "0xaa" then
    .ok [⟨"h1", some "0xaa", some "0xB", "1.5", 0⟩,
         ⟨"h2", some "0xaa", some "0xb", "2", 1⟩]
  else .ok []

/-- Ledger with one outgoing transaction at the seed (dangling-endpoint instance). -/
def led10 : Ledger := fun a _ =>
  if a = "0xaa" then .ok [⟨"h1", some "0xaa", some "0xbb", "1.5", 0⟩]
  else .ok []

/-- A ledger whose every fetch fails. -/
def ledFail : Ledger := fun _ _ => .error "boom"

/-- Ledger for witnesses: `0xaa` pays `0xbb`, `0xbb` pays `0xcc`, fetches for
`0xdd` fail, everything else is empty. -/
def ledW : Ledger := fun a _ =>
  if a = "0xaa" then .ok [⟨"h1", some "0xaa", some "0xbb", "1", 0⟩]
  else if a = "0xbb" then .ok [⟨"h2", some "0xbb", some "0xcc", "2", 1⟩]
  else if a = "0xdd" then .error "boom"
  else .ok []

/-- Concrete formatted graph used by witnesses: the default tracer over `ledW`,
depth 2, direction `both`, seeded at `0xaa`. -/
def c5g : FormattedGraph :=
  formatGraph (traceRecFuel cfgT ledW "both" 2 2 "0xaa" 0 ⟨[], []⟩) "0xaa"
    ⟨cfgT.network, 2, "t0"⟩

/-- As `c5g` but with direction `out`. -/
def c6g : FormattedGraph :=
  formatGraph (traceRecFuel cfgT ledW "out" 2 2 "0xaa" 0 ⟨[], []⟩) "0xaa"
    ⟨cfgT.network, 2, "t0"⟩

/-- As `c5g` but with direction `in`. -/
def c6gIn : FormattedGraph :=
  formatGraph (traceRecFuel cfgT ledW "in" 2 2 "0xaa" 0 ⟨[], []⟩) "0xaa"
    ⟨cfgT.network, 2, "t0"⟩

/-- Concrete path-search result used by witnesses: default tracer over `ledW`
from `0xaa` to `0xcc`. -/
def c3r : PathResult :=
  { fromAddr := "0xaa", toAddr := "0xcc"
    paths := (findPathsFuel cfgT ledW "0xcc" 5 5 "0xaa" ["0xaa"] 0 ⟨[], []⟩).paths
    pathCount :=
      (findPathsFuel cfgT ledW "0xcc" 5 5 "0xaa" ["0xaa"] 0 ⟨[], []⟩).paths.length
    network := cfgT.network }

/-- Every character of the text is JSON whitespace. -/
def allWs (cs : List Char) : Prop := ∀ c ∈ cs, isWsChar c = true

/-- The text does not start with a digit or a decimal point (so a preceding
number token cannot absorb it). -/
def noNumHead (cs : List Char) : Prop :=
  match cs with
  | [] => True
  | c :: _ => isDigitChar c = false ∧ c ≠ '.'

/-- The text does not start with a digit. -/
def noDigitHead (cs : List Char) : Prop :=
  match cs with
  | [] => True
  | c :: _ => isDigitChar c = false

mutual

/-- Structural parse-fuel measure of a JSON value: enough `parseValue` fuel to
read its rendering back. -/
def sizeV : Json → Nat
  | .str _ => 1
  | .num _ => 1
  | .arr xs => 1 + sizeE xs
  | .obj fs => 1 + sizeF fs
termination_by j => sizeOf j

/-- Parse-fuel measure of a nonempty array tail. -/
def sizeE : List Json → Nat
  | [] => 0
  | x :: xs => 1 + max (sizeV x) (sizeE xs)
termination_by xs => sizeOf xs

/-- Parse-fuel measure of a nonempty member-list tail. -/
def sizeF : List (String × Json) → Nat
  | [] => 0
  | (_, v) :: fs => 1 + max (sizeV v) (sizeF fs)
termination_by fs => sizeOf fs

end

/-! ## Theorems -/

theorem nodesHas_iff (ns : List (String × Node)) (a : String) :
    nodesHas ns a = true ↔ a ∈ ns.map Prod.fst := by
  simp [nodesHas, List.any_eq_true, List.mem_map]

theorem gstep_rfl (direction : String) (dlow m : Nat) (g : BuildGraph) :
    gstep direction dlow m g g :=
  ⟨⟨[], by simp, by simp [newNodesOk]⟩, ⟨[], by simp⟩, fun h => h,
   fun _ h => h, fun _ h => h⟩

theorem newNodesOk_mono {d1 d2 m : Nat} {l : List (String × Node)} (h : d2 ≤ d1)
    (hl : newNodesOk d1 m l) : newNodesOk d2 m l := by
  intro p hp
  obtain ⟨ha, hb, hc, hd⟩ := hl p hp
  exact ⟨ha, le_trans h hb, hc, hd⟩

theorem gstep_trans {dir : String} {d1 d2 dlow m : Nat} {g1 g2 g3 : BuildGraph}
    (h1 : gstep dir d1 m g1 g2) (h2 : gstep dir d2 m g2 g3)
    (hl1 : dlow ≤ d1) (hl2 : dlow ≤ d2) : gstep dir dlow m g1 g3 := by
  obtain ⟨⟨l1, hn1, ho1⟩, ⟨e1, he1⟩, hk1, hf1, ht1⟩ := h1
  obtain ⟨⟨l2, hn2, ho2⟩, ⟨e2, he2⟩, hk2, hf2, ht2⟩ := h2
  refine ⟨⟨l1 ++ l2, by rw [hn2, hn1, List.append_assoc], ?_⟩,
    ⟨e1 ++ e2, by rw [he2, he1, List.append_assoc]⟩,
    fun h => hk2 (hk1 h), fun hd h => hf2 hd (hf1 hd h),
    fun hd h => ht2 hd (ht1 hd h)⟩
  intro p hp
  rcases List.mem_append.1 hp with h | h
  · exact newNodesOk_mono hl1 ho1 p h
  · exact newNodesOk_mono hl2 ho2 p h

theorem gstep_pushEdge {dir : String} {dlow m : Nat} {g : BuildGraph}
    (f t : String) (tx : Tx) (a : String) (ha : a ∈ g.nodes.map Prod.fst)
    (hout : dir = "out" → jsToLower a = jsToLower f)
    (hin : dir = "in" → jsToLower a = jsToLower t) :
    gstep dir dlow m g { g with edges := g.edges ++ [mkEdge f t tx] } := by
  refine ⟨⟨[], by simp, by simp [newNodesOk]⟩, ⟨[mkEdge f t tx], rfl⟩,
    fun h => h, ?_, ?_⟩
  · intro hd hJ e he
    rcases List.mem_append.1 he with h | h
    · exact hJ e h
    · simp only [List.mem_singleton] at h
      subst h
      exact ⟨a, ha, hout hd⟩
  · intro hd hJ e he
    rcases List.mem_append.1 he with h | h
    · exact hJ e h
    · simp only [List.mem_singleton] at h
      subst h
      exact ⟨a, ha, hin hd⟩

theorem gstep_insert {dir : String} {dlow m : Nat} {g : BuildGraph} (a : String)
    (d : Nat) (hn : ¬ nodesHas g.nodes a = true) (hd : d < m) (hdl : dlow ≤ d) :
    gstep dir dlow m g
      { g with nodes :=
          nodesSet g.nodes a ⟨a, d, if d = 0 then "origin" else "intermediary"⟩ } := by
  have hna : a ∉ g.nodes.map Prod.fst := fun h => hn ((nodesHas_iff _ _).2 h)
  refine ⟨⟨[(a, _)], rfl, ?_⟩, ⟨[], by simp⟩, ?_, ?_, ?_⟩
  · intro p hp
    simp only [List.mem_singleton] at hp
    subst hp
    exact ⟨rfl, hdl, hd, rfl⟩
  · intro h
    simp only [keysNodup, nodesSet, List.map_append, List.map_cons, List.map_nil] at h ⊢
    rw [List.nodup_append]
    refine ⟨h, List.nodup_singleton a, ?_⟩
    intro x hx hax
    simp only [List.mem_singleton] at hax
    subst hax
    exact hna hx
  · intro hdir hJ e he
    obtain ⟨k, hk, hke⟩ := hJ e he
    exact ⟨k, by simp only [nodesSet, List.map_append]; exact List.mem_append_left _ hk, hke⟩
  · intro hdir hJ e he
    obtain ⟨k, hk, hke⟩ := hJ e he
    exact ⟨k, by simp only [nodesSet, List.map_append]; exact List.mem_append_left _ hk, hke⟩

theorem traceRecFuel_spec (cfg : TracerConfig) (ledger : Ledger)
    (direction : String) :
    ∀ (fuel maxDepth : Nat) (address : String) (currentDepth : Nat)
      (g : BuildGraph), maxDepth - currentDepth ≤ fuel →
      traceRecFuel cfg ledger direction maxDepth fuel address currentDepth g =
        traceRecursive cfg ledger direction maxDepth address currentDepth g := by
  intro fuel
  induction fuel with
  | zero =>
    intro m a d g h
    have hd : d ≥ m := by omega
    simp [traceRecFuel, traceRecursive, hd]
  | succ fuel ih =>
    intro m a d g h
    by_cases hd : d ≥ m
    · simp [traceRecFuel, traceRecursive, hd]
    · have hrw : ∀ (a' : String) (g' : BuildGraph),
          traceRecFuel cfg ledger direction m fuel a' (d + 1) g' =
            traceRecursive cfg ledger direction m a' (d + 1) g' :=
        fun a' g' => ih m a' (d + 1) g' (by omega)
      have hloop : ∀ (txs : List Tx) (g1 : BuildGraph),
          txs.foldl (fun gacc tx =>
            let ga : BuildGraph :=
              if direction = "out" ∨ direction = "both" then
                match tx.fromAddr, tx.toAddr with
                | some f, some t =>
                  if jsToLower f = jsToLower a then
                    let g' : BuildGraph :=
                      { gacc with edges := gacc.edges ++ [mkEdge f t tx] }
                    if d + 1 < m then
                      traceRecFuel cfg ledger direction m fuel t (d + 1) g'
                    else g'
                  else gacc
                | _, _ => gacc
              else gacc
            if direction = "in" ∨ direction = "both" then
              match tx.fromAddr, tx.toAddr with
              | some f, some t =>
                if jsToLower t = jsToLower a then
                  let g' : BuildGraph :=
                    { ga with edges := ga.edges ++ [mkEdge f t tx] }
                  if d + 1 < m then
                    traceRecFuel cfg ledger direction m fuel f (d + 1) g'
                  else g'
                else ga
              | _, _ => ga
            else ga) g1 =
          traceLoop cfg ledger direction m a d txs g1 := by
        intro txs
        induction txs with
        | nil => intro g1; simp [traceLoop]
        | cons tx rest ihl =>
          intro g1
          rw [traceLoop, List.foldl_cons, ihl]
          congr 1
          simp only [traceOutBlock, traceInBlock, hrw]
      simp only [traceRecFuel, traceRecursive]
      rw [if_neg hd, dif_neg hd]
      by_cases hn : nodesHas g.nodes a
      · simp [hn]
      · simp only [hn, Bool.false_eq_true, if_false]
        cases hle : ledger a 1 with
        | error e => rfl
        | ok transactions => exact hloop _ _

theorem findPathsFuel_spec (cfg : TracerConfig) (ledger : Ledger) (target : String) :
    ∀ (fuel maxDepth : Nat) (current : String) (path : List String) (depth : Nat)
      (st : PathState), maxDepth - depth ≤ fuel →
      findPathsFuel cfg ledger target maxDepth fuel current path depth st =
        findPaths cfg ledger target maxDepth current path depth st := by
  intro fuel
  induction fuel with
  | zero =>
    intro m current path d st h
    have hd : d ≥ m := by omega
    simp [findPathsFuel, findPaths, hd]
  | succ fuel ih =>
    intro m current path d st h
    by_cases hd : d ≥ m ∨ st.paths.length ≥ 10
    · simp only [findPathsFuel, findPaths]
      rw [if_pos hd, dif_pos hd]
    · have hloop : ∀ (p : List String) (txs : List Tx) (st1 : PathState),
          txs.foldl (fun stacc tx =>
            match tx.fromAddr, tx.toAddr with
            | some f, some t =>
              if jsToLower f = jsToLower current then
                if jsToLower t ∈ stacc.visited then stacc
                else
                  findPathsFuel cfg ledger target m fuel t (p ++ [t]) (d + 1) stacc
              else stacc
            | _, _ => stacc) st1 =
          pathsLoop cfg ledger target m current p d txs st1 := by
        intro p txs
        induction txs with
        | nil => intro st1; simp [pathsLoop]
        | cons tx rest ihl =>
          intro st1
          rw [pathsLoop, List.foldl_cons, ihl]
          have hrw : ∀ (t : String) (st' : PathState),
              findPathsFuel cfg ledger target m fuel t (p ++ [t]) (d + 1) st' =
                findPaths cfg ledger target m t (p ++ [t]) (d + 1) st' :=
            fun t st' => ih m t (p ++ [t]) (d + 1) st' (by omega)
          congr 1
          simp only [pathsStep, hrw]
      simp only [findPathsFuel, findPaths]
      rw [if_neg hd, dif_neg hd]
      by_cases ht : jsToLower current = jsToLower target
      · simp [ht]
      · simp only [ht, if_false]
        cases hle : ledger current 1 with
        | error e => rfl
        | ok transactions =>
          simp only [hloop]

theorem traceRecursive_gstep (cfg : TracerConfig) (ledger : Ledger) (dir : String)
    (m : Nat) :
    ∀ (k d : Nat), m - d ≤ k → ∀ (a : String) (g : BuildGraph),
      gstep dir d m g (traceRecursive cfg ledger dir m a d g) := by
  intro k
  induction k with
  | zero =>
    intro d h a g
    have hd : d ≥ m := by omega
    simp only [traceRecursive]
    rw [dif_pos hd]
    exact gstep_rfl dir d m g
  | succ k ih =>
    intro d h a g
    by_cases hd : d ≥ m
    · simp only [traceRecursive]
      rw [dif_pos hd]
      exact gstep_rfl dir d m g
    · have hout : ∀ (tx : Tx) (g' : BuildGraph), a ∈ g'.nodes.map Prod.fst →
          gstep dir (d + 1) m g'
            (traceOutBlock cfg ledger dir m a d tx g') := by
        intro tx g' ha'
        rw [traceOutBlock]
        by_cases hdir1 : dir = "out" ∨ dir = "both"
        · rw [if_pos hdir1]
          split
          · rename_i f t _heq1 _heq2
            by_cases hf : jsToLower f = jsToLower a
            · rw [if_pos hf]
              dsimp only
              have hpush : gstep dir (d + 1) m g'
                  { g' with edges := g'.edges ++ [mkEdge f t tx] } :=
                gstep_pushEdge f t tx a ha' (fun _ => hf.symm)
                  (fun hdi => by
                    rcases hdir1 with h1 | h1 <;> rw [hdi] at h1 <;> simp at h1)
              by_cases hstep : d + 1 < m
              · rw [if_pos hstep]
                exact gstep_trans hpush (ih (d + 1) (by omega) t _) le_rfl le_rfl
              · rw [if_neg hstep]
                exact hpush
            · rw [if_neg hf]
              exact gstep_rfl _ _ _ _
          · exact gstep_rfl _ _ _ _
        · rw [if_neg hdir1]
          exact gstep_rfl _ _ _ _
      have hin : ∀ (tx : Tx) (g' : BuildGraph), a ∈ g'.nodes.map Prod.fst →
          gstep dir (d + 1) m g'
            (traceInBlock cfg ledger dir m a d tx g') := by
        intro tx g' ha'
        rw [traceInBlock]
        by_cases hdir1 : dir = "in" ∨ dir = "both"
        · rw [if_pos hdir1]
          split
          · rename_i f t _heq1 _heq2
            by_cases hf : jsToLower t = jsToLower a
            · rw [if_pos hf]
              dsimp only
              have hpush : gstep dir (d + 1) m g'
                  { g' with edges := g'.edges ++ [mkEdge f t tx] } :=
                gstep_pushEdge f t tx a ha'
                  (fun hdi => by
                    rcases hdir1 with h1 | h1 <;> rw [hdi] at h1 <;> simp at h1)
                  (fun _ => hf.symm)
              by_cases hstep : d + 1 < m
              · rw [if_pos hstep]
                exact gstep_trans hpush (ih (d + 1) (by omega) f _) le_rfl le_rfl
              · rw [if_neg hstep]
                exact hpush
            · rw [if_neg hf]
              exact gstep_rfl _ _ _ _
          · exact gstep_rfl _ _ _ _
        · rw [if_neg hdir1]
          exact gstep_rfl _ _ _ _
      have hkeymono : ∀ (g1 g2 : BuildGraph), gstep dir (d + 1) m g1 g2 →
          a ∈ g1.nodes.map Prod.fst → a ∈ g2.nodes.map Prod.fst := by
        intro g1 g2 hs ha1
        obtain ⟨⟨l, hl, _⟩, _, _, _, _⟩ := hs
        rw [hl, List.map_append]
        exact List.mem_append_left _ ha1
      have hloop : ∀ (txs : List Tx) (g1 : BuildGraph),
          a ∈ g1.nodes.map Prod.fst →
          gstep dir (d + 1) m g1 (traceLoop cfg ledger dir m a d txs g1) := by
        intro txs
        induction txs with
        | nil =>
          intro g1 _
          rw [traceLoop]
          exact gstep_rfl _ _ _ _
        | cons tx rest ihl =>
          intro g1 ha1
          rw [traceLoop]
          have h1 := hout tx g1 ha1
          have ha2 := hkeymono _ _ h1 ha1
          have h2 := hin tx _ ha2
          have ha3 := hkeymono _ _ h2 ha2
          have h3 := ihl _ ha3
          exact gstep_trans h1 (gstep_trans h2 h3 le_rfl le_rfl) le_rfl le_rfl
      simp only [traceRecursive]
      rw [dif_neg hd]
      by_cases hn : nodesHas g.nodes a
      · rw [if_pos hn]
        exact gstep_rfl _ _ _ _
      · rw [if_neg hn]
        have hins : gstep dir d m g
            { g with nodes := nodesSet g.nodes a ⟨a, d, if d = 0 then "origin" else "intermediary"⟩ } :=
          gstep_insert a d hn (by omega) le_rfl
        have hamem : a ∈ (nodesSet g.nodes a ⟨a, d, if d = 0 then "origin" else "intermediary"⟩).map Prod.fst := by
          simp [nodesSet]
        cases hle : ledger a 1 with
        | error e => exact hins
        | ok transactions =>
          exact gstep_trans hins (hloop _ _ hamem) le_rfl (by omega)

theorem gstep_keymono {dir : String} {dlow m : Nat} {g1 g2 : BuildGraph}
    (hs : gstep dir dlow m g1 g2) {a : String} (ha : a ∈ g1.nodes.map Prod.fst) :
    a ∈ g2.nodes.map Prod.fst := by
  obtain ⟨⟨l, hl, _⟩, _, _, _, _⟩ := hs
  rw [hl, List.map_append]
  exact List.mem_append_left _ ha

theorem traceOutBlock_gstep (cfg : TracerConfig) (ledger : Ledger) (dir : String)
    (m : Nat) (a : String) (d : Nat) (tx : Tx) (g' : BuildGraph)
    (ha' : a ∈ g'.nodes.map Prod.fst) :
    gstep dir (d + 1) m g' (traceOutBlock cfg ledger dir m a d tx g') := by
  rw [traceOutBlock]
  by_cases hdir1 : dir = "out" ∨ dir = "both"
  · rw [if_pos hdir1]
    split
    · rename_i f t _heq1 _heq2
      by_cases hf : jsToLower f = jsToLower a
      · rw [if_pos hf]
        dsimp only
        have hpush : gstep dir (d + 1) m g'
            { g' with edges := g'.edges ++ [mkEdge f t tx] } :=
          gstep_pushEdge f t tx a ha' (fun _ => hf.symm)
            (fun hdi => by
              rcases hdir1 with h1 | h1 <;> rw [hdi] at h1 <;> simp at h1)
        by_cases hstep : d + 1 < m
        · rw [if_pos hstep]
          exact gstep_trans hpush
            (traceRecursive_gstep cfg ledger dir m (m - (d + 1)) (d + 1) le_rfl t _)
            le_rfl le_rfl
        · rw [if_neg hstep]
          exact hpush
      · rw [if_neg hf]
        exact gstep_rfl _ _ _ _
    · exact gstep_rfl _ _ _ _
  · rw [if_neg hdir1]
    exact gstep_rfl _ _ _ _

theorem traceInBlock_gstep (cfg : TracerConfig) (ledger : Ledger) (dir : String)
    (m : Nat) (a : String) (d : Nat) (tx : Tx) (g' : BuildGraph)
    (ha' : a ∈ g'.nodes.map Prod.fst) :
    gstep dir (d + 1) m g' (traceInBlock cfg ledger dir m a d tx g') := by
  rw [traceInBlock]
  by_cases hdir1 : dir = "in" ∨ dir = "both"
  · rw [if_pos hdir1]
    split
    · rename_i f t _heq1 _heq2
      by_cases hf : jsToLower t = jsToLower a
      · rw [if_pos hf]
        dsimp only
        have hpush : gstep dir (d + 1) m g'
            { g' with edges := g'.edges ++ [mkEdge f t tx] } :=
          gstep_pushEdge f t tx a ha'
            (fun hdi => by
              rcases hdir1 with h1 | h1 <;> rw [hdi] at h1 <;> simp at h1)
            (fun _ => hf.symm)
        by_cases hstep : d + 1 < m
        · rw [if_pos hstep]
          exact gstep_trans hpush
            (traceRecursive_gstep cfg ledger dir m (m - (d + 1)) (d + 1) le_rfl f _)
            le_rfl le_rfl
        · rw [if_neg hstep]
          exact hpush
      · rw [if_neg hf]
        exact gstep_rfl _ _ _ _
    · exact gstep_rfl _ _ _ _
  · rw [if_neg hdir1]
    exact gstep_rfl _ _ _ _

theorem traceLoop_gstep (cfg : TracerConfig) (ledger : Ledger) (dir : String)
    (m : Nat) (a : String) (d : Nat) :
    ∀ (txs : List Tx) (g1 : BuildGraph), a ∈ g1.nodes.map Prod.fst →
      gstep dir (d + 1) m g1 (traceLoop cfg ledger dir m a d txs g1) := by
  intro txs
  induction txs with
  | nil =>
    intro g1 _
    rw [traceLoop]
    exact gstep_rfl _ _ _ _
  | cons tx rest ihl =>
    intro g1 ha1
    rw [traceLoop]
    have h1 := traceOutBlock_gstep cfg ledger dir m a d tx g1 ha1
    have ha2 := gstep_keymono h1 ha1
    have h2 := traceInBlock_gstep cfg ledger dir m a d tx _ ha2
    have ha3 := gstep_keymono h2 ha2
    have h3 := ihl _ ha3
    exact gstep_trans h1 (gstep_trans h2 h3 le_rfl le_rfl) le_rfl le_rfl

theorem traceRecursive_root (cfg : TracerConfig) (ledger : Ledger) (dir : String)
    (m : Nat) (a : String) (hm : 1 ≤ m) :
    gstep dir 1 m ⟨[(a, ⟨a, 0, "origin"⟩)], []⟩
      (traceRecursive cfg ledger dir m a 0 ⟨[], []⟩) := by
  simp only [traceRecursive]
  rw [dif_neg (by omega : ¬ (0 ≥ m))]
  rw [if_neg (by simp [nodesHas] : ¬ nodesHas (⟨[], []⟩ : BuildGraph).nodes a = true)]
  cases hle : ledger a 1 with
  | error e => exact gstep_rfl _ _ _ _
  | ok transactions =>
    exact traceLoop_gstep cfg ledger dir m a 0 _ _ (by simp [nodesSet])

theorem traceFromAddress_ok (cfg : TracerConfig) (ledger : Ledger)
    (nowIso address : String) (options : TraceOptions) (h : ¬ address = "") :
    traceFromAddress cfg ledger nowIso address options =
      .ok (formatGraph
        (traceRecursive cfg ledger (jsOrStr options.direction "both")
          (jsOrNat options.depth cfg.maxDepth) address 0 ⟨[], []⟩)
        address ⟨cfg.network, jsOrNat options.depth cfg.maxDepth, nowIso⟩) := by
  simp only [traceFromAddress]
  rw [if_neg h]

theorem jsOrNat_pos {x : Option Nat} {d : Nat} (hd : 1 ≤ d) : 1 ≤ jsOrNat x d := by
  unfold jsOrNat
  cases x with
  | none => exact hd
  | some n =>
    by_cases hn : n = 0
    · simp [hn]; omega
    · simp [hn]; omega

/-- C5: for a traversal with effective depth `k` (which is at least 1 whenever the
constructor-produced `maxDepth` is), every node of the resulting graph has
`depth < k` (depths are naturals, so `0 ≤ depth` holds by type), the seed has a
node with depth 0 and kind `origin`, and every node for another address is an
`intermediary` of depth at least 1. -/
theorem claim_C5_depth_bounds (cfg : TracerConfig) (ledger : Ledger)
    (nowIso address : String) (options : TraceOptions) (g : FormattedGraph)
    (hm : 1 ≤ cfg.maxDepth)
    (hok : traceFromAddress cfg ledger nowIso address options = .ok g) :
    (∀ n ∈ g.nodes, n.depth < jsOrNat options.depth cfg.maxDepth) ∧
    (∃ n ∈ g.nodes, n.address = address ∧ n.depth = 0 ∧ n.type = "origin") ∧
    (∀ n ∈ g.nodes, n.address ≠ address →
      n.type = "intermediary" ∧ 1 ≤ n.depth) := by
  by_cases haddr : address = ""
  · rw [traceFromAddress, if_pos haddr] at hok
    cases hok
  · rw [traceFromAddress_ok cfg ledger nowIso address options haddr] at hok
    simp only [Except.ok.injEq] at hok
    subst hok
    obtain ⟨⟨l, hl, hlok⟩, -, -, -, -⟩ :=
      traceRecursive_root cfg ledger (jsOrStr options.direction "both")
        (jsOrNat options.depth cfg.maxDepth) address (jsOrNat_pos hm)
    simp only [formatGraph, hl]
    refine ⟨?_, ?_, ?_⟩
    · intro n hn
      rw [List.map_append] at hn
      rcases List.mem_append.1 hn with h | h
      · simp only [List.map_cons, List.map_nil, List.mem_singleton] at h
        subst h
        exact jsOrNat_pos hm
      · obtain ⟨p, hp, rfl⟩ := List.mem_map.1 h
        exact (hlok p hp).2.2.1
    · refine ⟨⟨address, 0, "origin"⟩, ?_, rfl, rfl, rfl⟩
      rw [List.map_append]
      exact List.mem_append_left _ (by simp)
    · intro n hn hne
      rw [List.map_append] at hn
      rcases List.mem_append.1 hn with h | h
      · simp only [List.map_cons, List.map_nil, List.mem_singleton] at h
        subst h
        exact absurd rfl hne
      · obtain ⟨p, hp, rfl⟩ := List.mem_map.1 h
        obtain ⟨-, hd1, -, hty⟩ := hlok p hp
        refine ⟨?_, hd1⟩
        rw [hty, if_neg (by omega)]

theorem traceRoot_addr_eq_key (cfg : TracerConfig) (ledger : Ledger) (dir : String)
    (m : Nat) (a : String) (hm : 1 ≤ m) :
    ∀ p ∈ (traceRecursive cfg ledger dir m a 0 ⟨[], []⟩).nodes,
      p.2.address = p.1 := by
  obtain ⟨⟨l, hl, hlok⟩, -, -, -, -⟩ := traceRecursive_root cfg ledger dir m a hm
  intro p hp
  rw [hl] at hp
  rcases List.mem_append.1 hp with h | h
  · simp only [List.mem_singleton] at h
    subst h
    rfl
  · exact (hlok p h).1

/-- C1 (amended): the node map is keyed by the exact address string, so a built
graph never holds two nodes for the same exact address; two addresses that differ
only in case can each get their own node (see the counterexample). -/
theorem claim_C1_exact_dedup (cfg : TracerConfig) (ledger : Ledger)
    (nowIso address : String) (options : TraceOptions) (g : FormattedGraph)
    (hok : traceFromAddress cfg ledger nowIso address options = .ok g) :
    (g.nodes.map (fun n => n.address)).Nodup := by
  by_cases haddr : address = ""
  · rw [traceFromAddress, if_pos haddr] at hok
    cases hok
  · rw [traceFromAddress_ok cfg ledger nowIso address options haddr] at hok
    simp only [Except.ok.injEq] at hok
    subst hok
    by_cases hm : 1 ≤ jsOrNat options.depth cfg.maxDepth
    · have haddreq := traceRoot_addr_eq_key cfg ledger
        (jsOrStr options.direction "both") (jsOrNat options.depth cfg.maxDepth)
        address hm
      obtain ⟨⟨l, hl, hlok⟩, -, hnodup, -, -⟩ :=
        traceRecursive_root cfg ledger (jsOrStr options.direction "both")
          (jsOrNat options.depth cfg.maxDepth) address hm
      have hkeys : keysNodup (traceRecursive cfg ledger
          (jsOrStr options.direction "both") (jsOrNat options.depth cfg.maxDepth)
          address 0 ⟨[], []⟩) := by
        apply hnodup
        simp [keysNodup]
      simp only [formatGraph, List.map_map]
      have : ((traceRecursive cfg ledger (jsOrStr options.direction "both")
          (jsOrNat options.depth cfg.maxDepth) address 0 ⟨[], []⟩).nodes.map
            ((fun n => n.address) ∘ Prod.snd)) =
          ((traceRecursive cfg ledger (jsOrStr options.direction "both")
          (jsOrNat options.depth cfg.maxDepth) address 0 ⟨[], []⟩).nodes.map
            Prod.fst) :=
        List.map_congr_left (fun p hp => haddreq p hp)
      rw [this]
      exact hkeys
    · have hm0 : jsOrNat options.depth cfg.maxDepth = 0 := by omega
      rw [traceRecursive] at *
      rw [dif_pos (by omega)]
      simp [formatGraph]

/-- C1 (counterexample): the node set is keyed by the raw address string, not the
case-folded one. With a ledger whose seed pays `0xB` and `0xb`, the built graph
holds two distinct nodes whose addresses are case-folded equal. -/
theorem claim_C1_counterexample :
    ∃ g, traceFromAddress cfgT led1 "t0" "0xaa" ⟨some 2, some "both"⟩ = .ok g ∧
      ∃ n1 ∈ g.nodes, ∃ n2 ∈ g.nodes, n1 ≠ n2 ∧
        jsToLower n1.address = jsToLower n2.address := by
  rw [traceFromAddress_ok cfgT led1 "t0" "0xaa" ⟨some 2, some "both"⟩ (by decide)]
  rw [← traceRecFuel_spec cfgT led1 (jsOrStr (some "both") "both")
    (jsOrNat (some 2) cfgT.maxDepth) (jsOrNat (some 2) cfgT.maxDepth)
    "0xaa" 0 ⟨[], []⟩ (Nat.sub_le _ _)]
  exact ⟨_, rfl, by decide⟩

theorem c5g_ok :
    traceFromAddress cfgT ledW "t0" "0xaa" ⟨some 2, some "both"⟩ = .ok c5g := by
  rw [traceFromAddress_ok cfgT ledW "t0" "0xaa" ⟨some 2, some "both"⟩ (by decide)]
  rw [← traceRecFuel_spec cfgT ledW (jsOrStr (some "both") "both")
    (jsOrNat (some 2) cfgT.maxDepth) (jsOrNat (some 2) cfgT.maxDepth)
    "0xaa" 0 ⟨[], []⟩ (Nat.sub_le _ _)]
  rfl

theorem c6g_ok :
    traceFromAddress cfgT ledW "t0" "0xaa" ⟨some 2, some "out"⟩ = .ok c6g := by
  rw [traceFromAddress_ok cfgT ledW "t0" "0xaa" ⟨some 2, some "out"⟩ (by decide)]
  rw [← traceRecFuel_spec cfgT ledW (jsOrStr (some "out") "both")
    (jsOrNat (some 2) cfgT.maxDepth) (jsOrNat (some 2) cfgT.maxDepth)
    "0xaa" 0 ⟨[], []⟩ (Nat.sub_le _ _)]
  rfl

theorem claim_C5_witness :
    1 ≤ cfgT.maxDepth ∧
    ((∀ n ∈ c5g.nodes, n.depth < jsOrNat (some 2) cfgT.maxDepth) ∧
     (∃ n ∈ c5g.nodes, n.address = "0xaa" ∧ n.depth = 0 ∧ n.type = "origin") ∧
     (∀ n ∈ c5g.nodes, n.address ≠ "0xaa" →
       n.type = "intermediary" ∧ 1 ≤ n.depth)) :=
  ⟨by decide, claim_C5_depth_bounds cfgT ledW "t0" "0xaa" ⟨some 2, some "both"⟩
    c5g (by decide) c5g_ok⟩

theorem claim_C1_witness : (c5g.nodes.map (fun n => n.address)).Nodup :=
  claim_C1_exact_dedup cfgT ledW "t0" "0xaa" ⟨some 2, some "both"⟩ c5g c5g_ok

/-- C6: with the `out` filter, every edge of the resulting graph has a `from`
that case-equals the address of some recorded node (namely the address being
expanded when the edge was appended, which is inserted into the node set before
its loop runs and is never removed); symmetrically for `in` and `to`. -/
theorem claim_C6_direction_filter (cfg : TracerConfig) (ledger : Ledger)
    (nowIso address : String) (options : TraceOptions) (g : FormattedGraph)
    (hok : traceFromAddress cfg ledger nowIso address options = .ok g) :
    (options.direction = some "out" →
      ∀ e ∈ g.edges, ∃ n ∈ g.nodes, jsToLower n.address = jsToLower e.fromAddr) ∧
    (options.direction = some "in" →
      ∀ e ∈ g.edges, ∃ n ∈ g.nodes, jsToLower n.address = jsToLower e.toAddr) := by
  by_cases haddr : address = ""
  · rw [traceFromAddress, if_pos haddr] at hok
    cases hok
  · rw [traceFromAddress_ok cfg ledger nowIso address options haddr] at hok
    simp only [Except.ok.injEq] at hok
    subst hok
    by_cases hm : 1 ≤ jsOrNat options.depth cfg.maxDepth
    · have haddreq := traceRoot_addr_eq_key cfg ledger
        (jsOrStr options.direction "both") (jsOrNat options.depth cfg.maxDepth)
        address hm
      obtain ⟨-, -, -, hjout, hjin⟩ :=
        traceRecursive_root cfg ledger (jsOrStr options.direction "both")
          (jsOrNat options.depth cfg.maxDepth) address hm
      constructor
      · intro hdir e he
        rw [hdir] at hjout haddreq he ⊢
        have hout := hjout (by simp [jsOrStr]) (by intro e' he'; cases he')
        simp only [formatGraph] at he ⊢
        obtain ⟨k, hk, hke⟩ := hout e he
        obtain ⟨p, hp, rfl⟩ := List.mem_map.1 hk
        exact ⟨p.2, List.mem_map.2 ⟨p, hp, rfl⟩, by rw [haddreq p hp]; exact hke⟩
      · intro hdir e he
        rw [hdir] at hjin haddreq he ⊢
        have hin := hjin (by simp [jsOrStr]) (by intro e' he'; cases he')
        simp only [formatGraph] at he ⊢
        obtain ⟨k, hk, hke⟩ := hin e he
        obtain ⟨p, hp, rfl⟩ := List.mem_map.1 hk
        exact ⟨p.2, List.mem_map.2 ⟨p, hp, rfl⟩, by rw [haddreq p hp]; exact hke⟩
    · have hm0 : jsOrNat options.depth cfg.maxDepth = 0 := by omega
      constructor <;> intro hdir e he <;>
        · rw [traceRecursive, dif_pos (by omega)] at he
          simp [formatGraph] at he

theorem claim_C6_witness :
    ((some "out" : Option String) = some "out" →
      ∀ e ∈ c6g.edges, ∃ n ∈ c6g.nodes,
        jsToLower n.address = jsToLower e.fromAddr) ∧
    ((some "out" : Option String) = some "in" →
      ∀ e ∈ c6g.edges, ∃ n ∈ c6g.nodes,
        jsToLower n.address = jsToLower e.toAddr) :=
  claim_C6_direction_filter cfgT ledW "t0" "0xaa" ⟨some 2, some "out"⟩ c6g c6g_ok

theorem tracePatch_eq (cfg : TracerConfig) (ledger : Ledger) (dir : String)
    (m : Nat) (bad err : String) (hbad : ledger bad 1 = .error err) :
    ∀ (k d : Nat), m - d ≤ k → ∀ (a : String) (g : BuildGraph),
      traceRecursive cfg ledger dir m a d g =
        traceRecursive cfg (patchLedger ledger bad) dir m a d g := by
  intro k
  induction k with
  | zero =>
    intro d h a g
    have hd : d ≥ m := by omega
    rw [traceRecursive, traceRecursive, dif_pos hd, dif_pos hd]
  | succ k ih =>
    intro d h a g
    by_cases hd : d ≥ m
    · rw [traceRecursive, traceRecursive, dif_pos hd, dif_pos hd]
    · have hout : ∀ (tx : Tx) (g' : BuildGraph),
          traceOutBlock cfg ledger dir m a d tx g' =
            traceOutBlock cfg (patchLedger ledger bad) dir m a d tx g' := by
        intro tx g'
        rw [traceOutBlock, traceOutBlock]
        by_cases hdir1 : dir = "out" ∨ dir = "both"
        · rw [if_pos hdir1, if_pos hdir1]
          split
          · rename_i f t _heq1 _heq2
            by_cases hf : jsToLower f = jsToLower a
            · rw [if_pos hf, if_pos hf]
              dsimp only
              by_cases hstep : d + 1 < m
              · rw [if_pos hstep, if_pos hstep]
                exact ih (d + 1) (by omega) t _
              · rw [if_neg hstep, if_neg hstep]
            · rw [if_neg hf, if_neg hf]
          · rfl
        · rw [if_neg hdir1, if_neg hdir1]
      have hin : ∀ (tx : Tx) (g' : BuildGraph),
          traceInBlock cfg ledger dir m a d tx g' =
            traceInBlock cfg (patchLedger ledger bad) dir m a d tx g' := by
        intro tx g'
        rw [traceInBlock, traceInBlock]
        by_cases hdir1 : dir = "in" ∨ dir = "both"
        · rw [if_pos hdir1, if_pos hdir1]
          split
          · rename_i f t _heq1 _heq2
            by_cases hf : jsToLower t = jsToLower a
            · rw [if_pos hf, if_pos hf]
              dsimp only
              by_cases hstep : d + 1 < m
              · rw [if_pos hstep, if_pos hstep]
                exact ih (d + 1) (by omega) f _
              · rw [if_neg hstep, if_neg hstep]
            · rw [if_neg hf, if_neg hf]
          · rfl
        · rw [if_neg hdir1, if_neg hdir1]
      have hloop : ∀ (txs : List Tx) (g1 : BuildGraph),
          traceLoop cfg ledger dir m a d txs g1 =
            traceLoop cfg (patchLedger ledger bad) dir m a d txs g1 := by
        intro txs
        induction txs with
        | nil => intro g1; rw [traceLoop, traceLoop]
        | cons tx rest ihl =>
          intro g1
          rw [traceLoop, traceLoop]
          rw [← hout tx g1, ← hin tx _]
          exact ihl _
      rw [traceRecursive, traceRecursive, dif_neg hd, dif_neg hd]
      by_cases hn : nodesHas g.nodes a
      · rw [if_pos hn, if_pos hn]
      · rw [if_neg hn, if_neg hn]
        by_cases hab : a = bad
        · subst hab
          rw [hbad]
          simp [patchLedger, traceLoop]
        · have hpa : patchLedger ledger bad a 1 = ledger a 1 := by
            simp [patchLedger, hab]
          rw [hpa]
          cases hle : ledger a 1 with
          | error e => rfl
          | ok transactions => exact hloop _ _

/-- C7: a fetch failure at any single address is caught locally: the whole build
still returns a graph (never an error), and the result is exactly what the build
produces when that address instead reports no transactions — so everything
contributed by other addresses is retained. -/
theorem claim_C7_fetch_failure_not_fatal (cfg : TracerConfig) (ledger : Ledger)
    (nowIso address : String) (options : TraceOptions) (bad err : String)
    (hbad : ledger bad 1 = .error err) (haddr : ¬ address = "") :
    (∃ g, traceFromAddress cfg ledger nowIso address options = .ok g) ∧
    traceFromAddress cfg ledger nowIso address options =
      traceFromAddress cfg (patchLedger ledger bad) nowIso address options := by
  constructor
  · exact ⟨_, traceFromAddress_ok cfg ledger nowIso address options haddr⟩
  · rw [traceFromAddress_ok cfg ledger nowIso address options haddr,
      traceFromAddress_ok cfg (patchLedger ledger bad) nowIso address options haddr,
      tracePatch_eq cfg ledger (jsOrStr options.direction "both")
        (jsOrNat options.depth cfg.maxDepth) bad err hbad
        (jsOrNat options.depth cfg.maxDepth) 0 (Nat.sub_le _ _) address ⟨[], []⟩]

theorem claim_C7_witness :
    (∃ g, traceFromAddress cfgT ledW "t0" "0xaa" ⟨some 2, some "both"⟩ = .ok g) ∧
    traceFromAddress cfgT ledW "t0" "0xaa" ⟨some 2, some "both"⟩ =
      traceFromAddress cfgT (patchLedger ledW "0xdd") "t0" "0xaa"
        ⟨some 2, some "both"⟩ :=
  claim_C7_fetch_failure_not_fatal cfgT ledW "t0" "0xaa" ⟨some 2, some "both"⟩
    "0xdd" "boom" rfl (by decide)

theorem setAdd_self_mem (v : List String) (a : String) : a ∈ setAdd v a := by
  unfold setAdd
  split
  · assumption
  · exact List.mem_append_right _ (by simp)

theorem setAdd_mem_of_mem {v : List String} {x : String} (a : String)
    (hx : x ∈ v) : x ∈ setAdd v a := by
  unfold setAdd
  split
  · exact hx
  · exact List.mem_append_left _ hx

theorem setAdd_of_not_mem {v : List String} {a : String} (h : a ∉ v) :
    setAdd v a = v ++ [a] := by
  unfold setAdd
  rw [if_neg h]

theorem setDelete_append_self {v : List String} {a : String} (h : a ∉ v) :
    setDelete (v ++ [a]) a = v := by
  unfold setDelete
  rw [List.filter_append]
  have h1 : v.filter (fun x => x ≠ a) = v :=
    List.filter_eq_self.2 (fun x hx => by
      simp only [ne_eq, decide_eq_true_eq]
      exact fun hxa => h (hxa ▸ hx))
  have h2 : [a].filter (fun x => x ≠ a) = [] := by simp
  rw [h1, h2, List.append_nil]

theorem le_max10_trans {a b c : Nat} (h1 : a ≤ max b 10) (h2 : b ≤ max c 10) :
    a ≤ max c 10 :=
  le_trans h1 (Nat.max_le.2 ⟨h2, Nat.le_max_right _ _⟩)

theorem findPaths_master (cfg : TracerConfig) (ledger : Ledger) (target : String)
    (m : Nat) :
    ∀ (k d : Nat), m - d ≤ k → ∀ (current : String) (path : List String)
      (st : PathState),
      (∃ l, (findPaths cfg ledger target m current path d st).paths =
        st.paths ++ l) ∧
      ((findPaths cfg ledger target m current path d st).paths.length ≤
        max st.paths.length 10) ∧
      (jsToLower current ∉ st.visited →
        (findPaths cfg ledger target m current path d st).visited = st.visited) ∧
      (((∃ path0, path = path0 ++ [current] ∧
          ∀ x ∈ path0, jsToLower x ∈ st.visited) ∧
        (path.map jsToLower).Nodup) →
        ∀ p ∈ (findPaths cfg ledger target m current path d st).paths,
          p ∈ st.paths ∨ (p.map jsToLower).Nodup) := by
  intro k
  induction k with
  | zero =>
    intro d h current path st
    have hd : d ≥ m := by omega
    rw [findPaths, dif_pos (Or.inl hd)]
    exact ⟨⟨[], by simp⟩, by omega, fun _ => rfl, fun _ p hp => Or.inl hp⟩
  | succ k ih =>
    intro d h current path st
    by_cases hguard : d ≥ m ∨ st.paths.length ≥ 10
    · rw [findPaths, dif_pos hguard]
      exact ⟨⟨[], by simp⟩, by omega, fun _ => rfl, fun _ p hp => Or.inl hp⟩
    · have hloop : ∀ (txs : List Tx) (st1 : PathState),
          (∃ l, (pathsLoop cfg ledger target m current path d txs st1).paths =
            st1.paths ++ l) ∧
          ((pathsLoop cfg ledger target m current path d txs st1).paths.length ≤
            max st1.paths.length 10) ∧
          ((pathsLoop cfg ledger target m current path d txs st1).visited =
            st1.visited) ∧
          (((∀ x ∈ path, jsToLower x ∈ st1.visited) ∧
            (path.map jsToLower).Nodup) →
            ∀ p ∈ (pathsLoop cfg ledger target m current path d txs st1).paths,
              p ∈ st1.paths ∨ (p.map jsToLower).Nodup) := by
        intro txs
        induction txs with
        | nil =>
          intro st1
          rw [pathsLoop]
          exact ⟨⟨[], by simp⟩, by omega, rfl, fun _ p hp => Or.inl hp⟩
        | cons tx rest ihl =>
          intro st1
          rw [pathsLoop]
          have hstep :
              (∃ l, (pathsStep cfg ledger target m current path d tx st1).paths =
                st1.paths ++ l) ∧
              ((pathsStep cfg ledger target m current path d tx st1).paths.length ≤
                max st1.paths.length 10) ∧
              ((pathsStep cfg ledger target m current path d tx st1).visited =
                st1.visited) ∧
              (((∀ x ∈ path, jsToLower x ∈ st1.visited) ∧
                (path.map jsToLower).Nodup) →
                ∀ p ∈ (pathsStep cfg ledger target m current path d tx st1).paths,
                  p ∈ st1.paths ∨ (p.map jsToLower).Nodup) := by
            rw [pathsStep]
            split
            · rename_i f t _heq1 _heq2
              by_cases hf : jsToLower f = jsToLower current
              · rw [if_pos hf]
                by_cases hv : jsToLower t ∈ st1.visited
                · rw [if_pos hv]
                  exact ⟨⟨[], by simp⟩, by omega, rfl, fun _ p hp => Or.inl hp⟩
                · rw [if_neg hv]
                  obtain ⟨hA, hB, hC, hD⟩ := ih (d + 1) (by omega) t (path ++ [t]) st1
                  refine ⟨hA, hB, hC hv, ?_⟩
                  intro ⟨hvis, hnd⟩ p hp
                  refine hD ⟨⟨path, rfl, fun x hx => hvis x hx⟩, ?_⟩ p hp
                  rw [List.map_append]
                  simp only [List.map_cons, List.map_nil]
                  rw [List.nodup_append]
                  refine ⟨hnd, List.nodup_singleton _, ?_⟩
                  intro x hx hxa
                  simp only [List.mem_singleton] at hxa
                  subst hxa
                  obtain ⟨y, hy, hyx⟩ := List.mem_map.1 hx
                  exact hv (hyx ▸ hvis y hy)
              · rw [if_neg hf]
                exact ⟨⟨[], by simp⟩, by omega, rfl, fun _ p hp => Or.inl hp⟩
            · exact ⟨⟨[], by simp⟩, by omega, rfl, fun _ p hp => Or.inl hp⟩
          obtain ⟨⟨l1, hA1⟩, hB1, hC1, hD1⟩ := hstep
          obtain ⟨⟨l2, hA2⟩, hB2, hC2, hD2⟩ :=
            ihl (pathsStep cfg ledger target m current path d tx st1)
          refine ⟨⟨l1 ++ l2, by rw [hA2, hA1, List.append_assoc]⟩, ?_, ?_, ?_⟩
          · exact le_max10_trans hB2 hB1
          · rw [hC2, hC1]
          · intro hpre p hp
            have hpre' : (∀ x ∈ path, jsToLower x ∈
                (pathsStep cfg ledger target m current path d tx st1).visited) ∧
                (path.map jsToLower).Nodup := by
              rw [hC1]
              exact hpre
            rcases hD2 hpre' p hp with hmem | hnd
            · exact hD1 hpre p hmem
            · exact Or.inr hnd
      rw [findPaths, dif_neg hguard]
      by_cases htgt : jsToLower current = jsToLower target
      · rw [if_pos htgt]
        refine ⟨⟨[path], rfl⟩, ?_, fun _ => rfl, ?_⟩
        · push_neg at hguard
          simp only [List.length_append, List.length_singleton]
          exact le_trans (by omega) (Nat.le_max_right _ _)
        intro ⟨_, hnd⟩ p hp
        rcases List.mem_append.1 hp with hmem | hmem
        · exact Or.inl hmem
        · simp only [List.mem_singleton] at hmem
          subst hmem
          exact Or.inr hnd
      · rw [if_neg htgt]
        dsimp only
        cases hle : ledger current 1 with
        | error e =>
          refine ⟨⟨[], by simp⟩, by simp, ?_, fun _ p hp => Or.inl hp⟩
          intro hv
          dsimp only
          rw [setAdd_of_not_mem hv]
          exact setDelete_append_self hv
        | ok transactions =>
          obtain ⟨⟨l, hA⟩, hB, hC, hD⟩ :=
            hloop (transactions.take cfg.maxTransactionsForPaths)
              { st with visited := setAdd st.visited (jsToLower current) }
          refine ⟨⟨l, by simpa using hA⟩, by simpa using hB, ?_, ?_⟩
          · intro hv
            dsimp only
            rw [hC]
            dsimp only
            rw [setAdd_of_not_mem hv]
            exact setDelete_append_self hv
          · intro ⟨⟨path0, hpath, hvis⟩, hnd⟩ p hp
            dsimp only at hp
            refine hD ⟨?_, hnd⟩ p (by simpa using hp)
            intro x hx
            dsimp only
            rw [hpath] at hx
            rcases List.mem_append.1 hx with hx0 | hx0
            · exact setAdd_mem_of_mem _ (hvis x hx0)
            · simp only [List.mem_singleton] at hx0
              subst hx0
              exact setAdd_self_mem _ _

theorem tracePath_ok (cfg : TracerConfig) (ledger : Ledger)
    (fromAddress toAddress : String) (h1 : ¬ fromAddress = "")
    (h2 : ¬ toAddress = "") :
    tracePath cfg ledger fromAddress toAddress = .ok
      { fromAddr := fromAddress, toAddr := toAddress
        paths := (findPaths cfg ledger toAddress 5 fromAddress [fromAddress] 0
          ⟨[], []⟩).paths
        pathCount := (findPaths cfg ledger toAddress 5 fromAddress [fromAddress] 0
          ⟨[], []⟩).paths.length
        network := cfg.network } := by
  simp only [tracePath]
  rw [if_neg h1, if_neg h2]

theorem c3r_ok : tracePath cfgT ledW "0xaa" "0xcc" = .ok c3r := by
  rw [tracePath_ok cfgT ledW "0xaa" "0xcc" (by decide) (by decide)]
  rw [← findPathsFuel_spec cfgT ledW "0xcc" 5 5 "0xaa" ["0xaa"] 0 ⟨[], []⟩
    (Nat.sub_le _ _)]
  rfl

/-- C3: a path search never returns more than 10 paths (the hard cap the code
fixes for every search; there is no caller-supplied `maxPaths` parameter), and
once the accumulated path count has reached the cap, every call of `_findPaths`
returns its state unchanged — in particular it performs no fetch and no
recursion. -/
theorem claim_C3_path_cap (cfg : TracerConfig) (ledger : Ledger)
    (fromAddress toAddress : String) (r : PathResult)
    (hok : tracePath cfg ledger fromAddress toAddress = .ok r) :
    (r.paths.length ≤ 10 ∧ r.pathCount ≤ 10) ∧
    (∀ (target : String) (m : Nat) (current : String) (path : List String)
      (depth : Nat) (st : PathState), 10 ≤ st.paths.length →
      findPaths cfg ledger target m current path depth st = st) := by
  constructor
  · by_cases h1 : fromAddress = ""
    · rw [tracePath, if_pos h1] at hok
      cases hok
    · by_cases h2 : toAddress = ""
      · rw [tracePath, if_neg h1, if_pos h2] at hok
        cases hok
      · rw [tracePath_ok cfg ledger fromAddress toAddress h1 h2] at hok
        simp only [Except.ok.injEq] at hok
        subst hok
        obtain ⟨-, hB, -, -⟩ := findPaths_master cfg ledger toAddress 5 5 0
          (by omega) fromAddress [fromAddress] ⟨[], []⟩
        exact ⟨by simpa using hB, by simpa using hB⟩
  · intro target m current path depth st hcap
    rw [findPaths, dif_pos (Or.inr hcap)]

theorem claim_C3_witness :
    ((c3r.paths.length ≤ 10 ∧ c3r.pathCount ≤ 10) ∧
     (∀ (target : String) (m : Nat) (current : String) (path : List String)
       (depth : Nat) (st : PathState), 10 ≤ st.paths.length →
       findPaths cfgT ledW target m current path depth st = st)) :=
  claim_C3_path_cap cfgT ledW "0xaa" "0xcc" c3r c3r_ok

/-- C4: every path returned by a path search is simple: its case-folded entries
are pairwise distinct, thanks to the backtracking visited-set discipline. -/
theorem claim_C4_path_simplicity (cfg : TracerConfig) (ledger : Ledger)
    (fromAddress toAddress : String) (r : PathResult)
    (hok : tracePath cfg ledger fromAddress toAddress = .ok r) :
    ∀ p ∈ r.paths, (p.map jsToLower).Nodup := by
  by_cases h1 : fromAddress = ""
  · rw [tracePath, if_pos h1] at hok
    cases hok
  · by_cases h2 : toAddress = ""
    · rw [tracePath, if_neg h1, if_pos h2] at hok
      cases hok
    · rw [tracePath_ok cfg ledger fromAddress toAddress h1 h2] at hok
      simp only [Except.ok.injEq] at hok
      subst hok
      obtain ⟨-, -, -, hD⟩ := findPaths_master cfg ledger toAddress 5 5 0
        (by omega) fromAddress [fromAddress] ⟨[], []⟩
      intro p hp
      rcases hD ⟨⟨[], by simp, by simp⟩, by simp⟩ p hp with hmem | hnd
      · cases hmem
      · exact hnd

theorem claim_C4_witness :
    ((["0xaa", "0xbb", "0xcc"] : List String).map jsToLower).Nodup :=
  claim_C4_path_simplicity cfgT ledW "0xaa" "0xcc" c3r c3r_ok
    ["0xaa", "0xbb", "0xcc"] (by decide)

/-- C2 (amended): on fetch failure `_getAddressFlow` returns the initial summary
object unchanged: empty lists, zero totals, zero transaction count — but
`netFlow` is left unset (the JS object never receives the field), not 0. -/
theorem claim_C2_zeroed_summary (ledger : Ledger) (address : String) (depth : Nat)
    (err : String) (hfail : ledger address depth = .error err) :
    getAddressFlow ledger address depth =
      { address := address, incoming := [], outgoing := [], totalIn := ⟨0, 0⟩
        totalOut := ⟨0, 0⟩, transactionCount := 0, netFlow := none } := by
  unfold getAddressFlow
  rw [hfail]

/-- C2 (counterexample to the claim as stated): with an always-failing ledger the
summary is zeroed except that `netFlow` is absent (`none`), not `0`. -/
theorem claim_C2_counterexample :
    (getAddressFlow ledFail "0xaa" 2).incoming = [] ∧
    (getAddressFlow ledFail "0xaa" 2).outgoing = [] ∧
    (getAddressFlow ledFail "0xaa" 2).totalIn = ⟨0, 0⟩ ∧
    (getAddressFlow ledFail "0xaa" 2).totalOut = ⟨0, 0⟩ ∧
    (getAddressFlow ledFail "0xaa" 2).transactionCount = 0 ∧
    (getAddressFlow ledFail "0xaa" 2).netFlow = none ∧
    ¬ (getAddressFlow ledFail "0xaa" 2).netFlow = some ⟨0, 0⟩ := by
  decide

theorem claim_C2_witness :
    getAddressFlow ledFail "0xaa" 2 =
      { address := "0xaa", incoming := [], outgoing := [], totalIn := ⟨0, 0⟩
        totalOut := ⟨0, 0⟩, transactionCount := 0, netFlow := none } :=
  claim_C2_zeroed_summary ledFail "0xaa" 2 "boom" rfl

/-- C10: edges are not guaranteed to have their far endpoint recorded as a node.
With one outgoing transaction at the seed and `maxDepth = 1`, the edge to `0xbb`
is appended at depth `maxDepth - 1 = 0` but `0xbb` is never inserted (recursion
is gated by `currentDepth + 1 < maxDepth`). -/
theorem claim_C10_dangling_endpoint :
    ∃ g, traceFromAddress cfgT led10 "t0" "0xaa" ⟨some 1, some "both"⟩ = .ok g ∧
      ∃ e ∈ g.edges, ∀ n ∈ g.nodes, jsToLower n.address ≠ jsToLower e.toAddr := by
  rw [traceFromAddress_ok cfgT led10 "t0" "0xaa" ⟨some 1, some "both"⟩ (by decide)]
  rw [← traceRecFuel_spec cfgT led10 (jsOrStr (some "both") "both")
    (jsOrNat (some 1) cfgT.maxDepth) (jsOrNat (some 1) cfgT.maxDepth)
    "0xaa" 0 ⟨[], []⟩ (Nat.sub_le _ _)]
  exact ⟨_, rfl, by decide⟩

/-- C8: `exportGraph` succeeds exactly on the tokens `json`, `dot`, `csv`
(returning text), and on any other token fails synchronously with
`Unsupported format: ...` — as a pure function it produces no output at all in
that case. -/
theorem claim_C8_export_formats (g : FormattedGraph) (format : String) :
    ((∃ s, exportGraph g format = .ok s) ↔
      (format = "json" ∨ format = "dot" ∨ format = "csv")) ∧
    (¬ (format = "json" ∨ format = "dot" ∨ format = "csv") →
      exportGraph g format = .error ("Unsupported format: " ++ format)) := by
  unfold exportGraph
  split
  · constructor
    · exact ⟨fun _ => Or.inl rfl, fun _ => ⟨_, rfl⟩⟩
    · exact fun h => absurd (Or.inl rfl) h
  · constructor
    · exact ⟨fun _ => Or.inr (Or.inl rfl), fun _ => ⟨_, rfl⟩⟩
    · exact fun h => absurd (Or.inr (Or.inl rfl)) h
  · constructor
    · exact ⟨fun _ => Or.inr (Or.inr rfl), fun _ => ⟨_, rfl⟩⟩
    · exact fun h => absurd (Or.inr (Or.inr rfl)) h
  · rename_i h1 h2 h3
    constructor
    · constructor
      · rintro ⟨s, hs⟩
        cases hs
      · intro h
        rcases h with h | h | h
        · exact absurd h h1
        · exact absurd h h2
        · exact absurd h h3
    · intro _
      rfl

/-! ### JSON round-trip development -/

theorem charNe_of_toNat {c d : Char} (h : c.toNat ≠ d.toNat) : c ≠ d := by
  intro he
  subst he
  exact h rfl

theorem toNat_ofNat_valid {n : Nat} (h : n < 55296) :
    (Char.ofNat n).toNat = n := by
  rw [Char.ofNat, dif_pos (Or.inl h)]
  simp [Char.ofNatAux, Char.toNat, UInt32.ofNat', UInt32.toNat,
    BitVec.toNat_ofNatLt]

theorem digit_toNat {n : Nat} (h : n < 10) :
    (Char.ofNat (48 + n)).toNat = 48 + n :=
  toNat_ofNat_valid (by omega)

theorem isDigitChar_digit {n : Nat} (h : n < 10) :
    isDigitChar (Char.ofNat (48 + n)) = true := by
  simp [isDigitChar, digit_toNat h]
  omega

theorem digitVal_digit {n : Nat} (h : n < 10) :
    digitVal (Char.ofNat (48 + n)) = n := by
  simp [digitVal, digit_toNat h]

theorem hexVal_hexDigitChar {n : Nat} (h : n < 16) :
    hexVal (hexDigitChar n) = some n := by
  unfold hexDigitChar hexVal
  by_cases h10 : n < 10
  · rw [if_pos h10]
    rw [if_pos (by rw [digit_toNat h10]; omega)]
    rw [digit_toNat h10]
    congr 1
    omega
  · rw [if_neg h10]
    have h87 : (Char.ofNat (87 + n)).toNat = 87 + n := toNat_ofNat_valid (by omega)
    rw [if_neg (by rw [h87]; omega), if_pos (by rw [h87]; omega), h87]
    congr 1
    omega

theorem wsChar_not_digit {c : Char} (h : isWsChar c = true) :
    isDigitChar c = false := by
  simp only [isWsChar, Bool.or_eq_true, decide_eq_true_eq] at h
  rcases h with ((h | h) | h) | h <;> subst h <;> decide

theorem skipWs_append_ws {ws : List Char} (cs : List Char) (h : allWs ws) :
    skipWs (ws ++ cs) = skipWs cs := by
  induction ws with
  | nil => rfl
  | cons c ws ih =>
    rw [List.cons_append, skipWs]
    rw [if_pos (h c (by simp))]
    exact ih (fun x hx => h x (by simp [hx]))

theorem skipWs_cons_not_ws {c : Char} (cs : List Char) (h : isWsChar c = false) :
    skipWs (c :: cs) = c :: cs := by
  rw [skipWs, if_neg (by simp [h])]

theorem allWs_indent (k : Nat) : allWs (indentChars k) := by
  intro c hc
  rw [indentChars] at hc
  rw [List.eq_of_mem_replicate hc]
  rfl

theorem allWs_newline_indent (k : Nat) : allWs ('\n' :: indentChars k) := by
  intro c hc
  rcases List.mem_cons.1 hc with h | h
  · subst h; rfl
  · exact allWs_indent k c h

theorem noNumHead_noDigit {cs : List Char} (h : noNumHead cs) : noDigitHead cs := by
  cases cs with
  | nil => trivial
  | cons c cs => exact h.1

theorem digitsVal_foldl_acc :
    ∀ (ds : List Char) (acc : Nat),
      List.foldl (fun a c => a * 10 + digitVal c) acc ds =
        acc * 10 ^ ds.length + digitsVal ds := by
  intro ds
  induction ds with
  | nil => intro acc; simp [digitsVal]
  | cons c ds ih =>
    intro acc
    rw [List.foldl_cons]
    rw [ih (acc * 10 + digitVal c)]
    have h0 : digitsVal (c :: ds) = digitVal c * 10 ^ ds.length + digitsVal ds := by
      unfold digitsVal
      rw [List.foldl_cons, ih (0 * 10 + digitVal c)]
      simp only [digitsVal]
      ring
    rw [h0, List.length_cons]
    ring

theorem digitsVal_append (ds es : List Char) :
    digitsVal (ds ++ es) = digitsVal ds * 10 ^ es.length + digitsVal es := by
  unfold digitsVal
  rw [List.foldl_append]
  exact digitsVal_foldl_acc es _

theorem digitsVal_replicate_zero (z : Nat) (ds : List Char) :
    digitsVal (List.replicate z '0' ++ ds) = digitsVal ds := by
  rw [digitsVal_append]
  have h0 : digitsVal (List.replicate z '0') = 0 := by
    induction z with
    | zero => rfl
    | succ z ih =>
      rw [List.replicate_succ]
      have : digitsVal ('0' :: List.replicate z '0') =
          List.foldl (fun a c => a * 10 + digitVal c) (0 * 10 + digitVal '0')
            (List.replicate z '0') := rfl
      rw [this, digitsVal_foldl_acc]
      have : digitVal '0' = 0 := rfl
      simp [this, ih]
  rw [h0]
  simp

theorem natToDigits_all_digits :
    ∀ (n : Nat), ∀ c ∈ natToDigits n, isDigitChar c = true := by
  intro n
  induction n using Nat.strong_induction_on with
  | _ n ih =>
    intro c hc
    rw [natToDigits] at hc
    split at hc
    · rename_i h10
      simp only [List.mem_singleton] at hc
      subst hc
      exact isDigitChar_digit h10
    · rename_i h10
      rcases List.mem_append.1 hc with h | h
      · exact ih (n / 10) (Nat.div_lt_self (by omega) (by omega)) c h
      · simp only [List.mem_singleton] at h
        subst h
        exact isDigitChar_digit (Nat.mod_lt _ (by omega))

theorem natToDigits_ne_nil (n : Nat) : natToDigits n ≠ [] := by
  rw [natToDigits]
  split
  · simp
  · simp

theorem digitsVal_natToDigits : ∀ (n : Nat), digitsVal (natToDigits n) = n := by
  intro n
  induction n using Nat.strong_induction_on with
  | _ n ih =>
    rw [natToDigits]
    split
    · rename_i h10
      have : digitsVal [Char.ofNat (48 + n)] =
          0 * 10 + digitVal (Char.ofNat (48 + n)) := rfl
      rw [this, digitVal_digit h10]
      omega
    · rename_i h10
      rw [digitsVal_append]
      rw [ih (n / 10) (Nat.div_lt_self (by omega) (by omega))]
      have : digitsVal [Char.ofNat (48 + n % 10)] =
          0 * 10 + digitVal (Char.ofNat (48 + n % 10)) := rfl
      rw [this, digitVal_digit (Nat.mod_lt _ (by omega))]
      simp only [List.length_singleton, pow_one]
      omega

theorem natToDigits_length_le :
    ∀ (n e : Nat), n < 10 ^ e → 1 ≤ e → (natToDigits n).length ≤ e := by
  intro n
  induction n using Nat.strong_induction_on with
  | _ n ih =>
    intro e hne he
    rw [natToDigits]
    split
    · simpa using he
    · rename_i h10
      have he2 : 2 ≤ e := by
        by_contra hc
        have : e = 1 := by omega
        subst this
        simp at hne
        omega
      have hdiv : n / 10 < 10 ^ (e - 1) := by
        rw [Nat.div_lt_iff_lt_mul (by omega)]
        have : 10 ^ (e - 1) * 10 = 10 ^ e := by
          rw [← pow_succ]
          congr 1
          omega
        omega
      have := ih (n / 10) (Nat.div_lt_self (by omega) (by omega)) (e - 1) hdiv
        (by omega)
      rw [List.length_append, List.length_singleton]
      omega

theorem takeDigits_spec :
    ∀ (ds rest : List Char), (∀ c ∈ ds, isDigitChar c = true) →
      noDigitHead rest → takeDigits (ds ++ rest) = (ds, rest) := by
  intro ds
  induction ds with
  | nil =>
    intro rest _ hrest
    cases rest with
    | nil => rfl
    | cons c cs =>
      rw [List.nil_append, takeDigits,
        if_neg (by simp [show isDigitChar c = false from hrest])]
  | cons c ds ih =>
    intro rest hds hrest
    rw [List.cons_append, takeDigits, if_pos (hds c (by simp))]
    rw [ih rest (fun x hx => hds x (by simp [hx])) hrest]

theorem headIs_false_of_ne {c c' : Char} (cs : List Char) (h : c' ≠ c) :
    headIs c (c' :: cs) = false := by
  simp [headIs, h]

theorem headIs_dot_false {rest : List Char} (h : noNumHead rest) :
    headIs '.' rest = false := by
  cases rest with
  | nil => rfl
  | cons c cs => exact headIs_false_of_ne cs h.2

theorem digit_ne {c : Char} (h : isDigitChar c = true) :
    c ≠ '-' ∧ c ≠ '.' ∧ c ≠ '"' ∧ c ≠ '[' ∧ c ≠ '\x7b' ∧ c ≠ ']' ∧
      c ≠ '\x7d' ∧ isWsChar c = false := by
  simp only [isDigitChar, Bool.and_eq_true, decide_eq_true_eq] at h
  have e1 : ('-').toNat = 45 := by decide
  have e2 : ('.').toNat = 46 := by decide
  have e3 : ('"').toNat = 34 := by decide
  have e4 : ('[').toNat = 91 := by decide
  have e5 : ('\x7b').toNat = 123 := by decide
  have e6 : (']').toNat = 93 := by decide
  have e7 : ('\x7d').toNat = 125 := by decide
  have e8 : (' ').toNat = 32 := by decide
  have e9 : ('\n').toNat = 10 := by decide
  have e10 : ('\t').toNat = 9 := by decide
  have e11 : ('\r').toNat = 13 := by decide
  refine ⟨charNe_of_toNat (by omega), charNe_of_toNat (by omega),
    charNe_of_toNat (by omega), charNe_of_toNat (by omega),
    charNe_of_toNat (by omega), charNe_of_toNat (by omega),
    charNe_of_toNat (by omega), ?_⟩
  simp only [isWsChar, Bool.or_eq_false_iff, decide_eq_false_iff_not]
  exact ⟨⟨⟨charNe_of_toNat (by omega), charNe_of_toNat (by omega)⟩,
    charNe_of_toNat (by omega)⟩, charNe_of_toNat (by omega)⟩

theorem noDigitHead_cons {c : Char} (cs : List Char)
    (h : isDigitChar c = false) : noDigitHead (c :: cs) := h

theorem parseNumber_decRender (d : Dec) (rest : List Char)
    (hrest : noNumHead rest) :
    parseNumber (decRender d ++ rest) = some (d, rest) := by
  obtain ⟨dm, de⟩ := d
  have hnodig := noNumHead_noDigit hrest
  have hdot := headIs_dot_false hrest
  unfold decRender
  dsimp only
  by_cases hexp : de = 0
  · rw [if_pos hexp]
    by_cases hneg : dm < 0
    · rw [if_pos hneg]
      rw [show (['-'] ++ natToDigits dm.natAbs) ++ rest =
          '-' :: (natToDigits dm.natAbs ++ rest) by simp]
      unfold parseNumber
      rw [show headIs '-' ('-' :: (natToDigits dm.natAbs ++ rest)) = true by
        simp [headIs]]
      simp only [eq_self_iff_true, if_true, List.tail_cons]
      rw [takeDigits_spec _ _ (natToDigits_all_digits _) hnodig]
      dsimp only
      rw [if_neg (by
        simp only [List.length_eq_zero]
        exact natToDigits_ne_nil _)]
      rw [hdot]
      simp only [Bool.false_eq_true, if_false, eq_self_iff_true, if_true,
        digitsVal_natToDigits, Option.some.injEq, Prod.mk.injEq, Dec.mk.injEq]
      refine ⟨⟨?_, hexp.symm⟩, trivial⟩
      omega
    · rw [if_neg hneg]
      obtain ⟨c0, cs0, hc0⟩ : ∃ c0 cs0, natToDigits dm.natAbs = c0 :: cs0 := by
        cases hh : natToDigits dm.natAbs with
        | nil => exact absurd hh (natToDigits_ne_nil _)
        | cons a b => exact ⟨a, b, rfl⟩
      have hc0dig : isDigitChar c0 = true :=
        natToDigits_all_digits _ c0 (by rw [hc0]; simp)
      rw [show ([] ++ natToDigits dm.natAbs) ++ rest =
          c0 :: (cs0 ++ rest) by simp [hc0]]
      unfold parseNumber
      rw [headIs_false_of_ne _ (digit_ne hc0dig).1]
      simp only [Bool.false_eq_true, if_false]
      rw [show c0 :: (cs0 ++ rest) = natToDigits dm.natAbs ++ rest by simp [hc0]]
      rw [takeDigits_spec _ _ (natToDigits_all_digits _) hnodig]
      dsimp only
      rw [if_neg (by
        simp only [List.length_eq_zero]
        exact natToDigits_ne_nil _)]
      rw [hdot]
      simp only [Bool.false_eq_true, if_false, digitsVal_natToDigits,
        Option.some.injEq, Prod.mk.injEq, Dec.mk.injEq]
      refine ⟨⟨?_, hexp.symm⟩, trivial⟩
      omega
  · rw [if_neg hexp]
    have hfrac : dm.natAbs % 10 ^ de < 10 ^ de := Nat.mod_lt _ (by positivity)
    have hfdlen : (natToDigits (dm.natAbs % 10 ^ de)).length ≤ de :=
      natToDigits_length_le _ de hfrac (by omega)
    have hfd_digits : ∀ c ∈ List.replicate
        (de - (natToDigits (dm.natAbs % 10 ^ de)).length) '0' ++
          natToDigits (dm.natAbs % 10 ^ de), isDigitChar c = true := by
      intro c hc
      rcases List.mem_append.1 hc with h | h
      · rw [List.eq_of_mem_replicate h]
        decide
      · exact natToDigits_all_digits _ c h
    have hlen : (List.replicate
        (de - (natToDigits (dm.natAbs % 10 ^ de)).length) '0' ++
          natToDigits (dm.natAbs % 10 ^ de)).length = de := by
      rw [List.length_append, List.length_replicate]
      omega
    by_cases hneg : dm < 0
    · rw [if_pos hneg]
      simp only [List.append_assoc, List.cons_append, List.singleton_append,
        List.nil_append]
      unfold parseNumber
      rw [show headIs '-' ('-' :: (natToDigits (dm.natAbs / 10 ^ de) ++
          ('.' :: (List.replicate
            (de - (natToDigits (dm.natAbs % 10 ^ de)).length) '0' ++
            (natToDigits (dm.natAbs % 10 ^ de) ++ rest))))) = true by
        simp [headIs]]
      simp only [eq_self_iff_true, if_true, List.tail_cons]
      rw [takeDigits_spec _ _ (natToDigits_all_digits _) (noDigitHead_cons _ (by decide))]
      dsimp only
      rw [if_neg (by
        simp only [List.length_eq_zero]
        exact natToDigits_ne_nil _)]
      rw [show headIs '.' ('.' :: (List.replicate
          (de - (natToDigits (dm.natAbs % 10 ^ de)).length) '0' ++
          (natToDigits (dm.natAbs % 10 ^ de) ++ rest))) = true by simp [headIs]]
      simp only [eq_self_iff_true, if_true, List.tail_cons]
      rw [show (List.replicate
          (de - (natToDigits (dm.natAbs % 10 ^ de)).length) '0' ++
            (natToDigits (dm.natAbs % 10 ^ de) ++ rest)) =
          (List.replicate
            (de - (natToDigits (dm.natAbs % 10 ^ de)).length) '0' ++
            natToDigits (dm.natAbs % 10 ^ de)) ++ rest by
        rw [List.append_assoc]]
      rw [takeDigits_spec _ _ hfd_digits hnodig]
      dsimp only
      rw [if_neg (by rw [hlen]; omega)]
      rw [digitsVal_natToDigits, digitsVal_replicate_zero,
        digitsVal_natToDigits, hlen]
      simp only [eq_self_iff_true, if_true, Option.some.injEq, Prod.mk.injEq,
        Dec.mk.injEq]
      refine ⟨⟨?_, trivial⟩, trivial⟩
      have hdm := Nat.div_add_mod dm.natAbs (10 ^ de)
      have hcomm : dm.natAbs / 10 ^ de * 10 ^ de =
          10 ^ de * (dm.natAbs / 10 ^ de) := Nat.mul_comm _ _
      omega
    · rw [if_neg hneg]
      obtain ⟨c0, cs0, hc0⟩ : ∃ c0 cs0,
          natToDigits (dm.natAbs / 10 ^ de) = c0 :: cs0 := by
        cases hh : natToDigits (dm.natAbs / 10 ^ de) with
        | nil => exact absurd hh (natToDigits_ne_nil _)
        | cons a b => exact ⟨a, b, rfl⟩
      have hc0dig : isDigitChar c0 = true :=
        natToDigits_all_digits _ c0 (by rw [hc0]; simp)
      simp only [List.append_assoc, List.cons_append, List.singleton_append,
        List.nil_append]
      rw [hc0, List.cons_append]
      unfold parseNumber
      rw [headIs_false_of_ne _ (digit_ne hc0dig).1]
      simp only [Bool.false_eq_true, if_false]
      rw [show c0 :: (cs0 ++ ('.' :: (List.replicate
          (de - (natToDigits (dm.natAbs % 10 ^ de)).length) '0' ++
          (natToDigits (dm.natAbs % 10 ^ de) ++ rest)))) =
          natToDigits (dm.natAbs / 10 ^ de) ++
            ('.' :: (List.replicate
              (de - (natToDigits (dm.natAbs % 10 ^ de)).length) '0' ++
              (natToDigits (dm.natAbs % 10 ^ de) ++ rest))) by simp [hc0]]
      rw [takeDigits_spec _ _ (natToDigits_all_digits _) (noDigitHead_cons _ (by decide))]
      dsimp only
      rw [if_neg (by
        simp only [List.length_eq_zero]
        exact natToDigits_ne_nil _)]
      rw [show headIs '.' ('.' :: (List.replicate
          (de - (natToDigits (dm.natAbs % 10 ^ de)).length) '0' ++
          (natToDigits (dm.natAbs % 10 ^ de) ++ rest))) = true by simp [headIs]]
      simp only [eq_self_iff_true, if_true, List.tail_cons]
      rw [show (List.replicate
          (de - (natToDigits (dm.natAbs % 10 ^ de)).length) '0' ++
            (natToDigits (dm.natAbs % 10 ^ de) ++ rest)) =
          (List.replicate
            (de - (natToDigits (dm.natAbs % 10 ^ de)).length) '0' ++
            natToDigits (dm.natAbs % 10 ^ de)) ++ rest by
        rw [List.append_assoc]]
      rw [takeDigits_spec _ _ hfd_digits hnodig]
      dsimp only
      rw [if_neg (by rw [hlen]; omega)]
      rw [digitsVal_natToDigits, digitsVal_replicate_zero,
        digitsVal_natToDigits, hlen]
      simp only [Bool.false_eq_true, if_false, Option.some.injEq,
        Prod.mk.injEq, Dec.mk.injEq]
      refine ⟨⟨?_, trivial⟩, trivial⟩
      have hdm := Nat.div_add_mod dm.natAbs (10 ^ de)
      have hcomm : dm.natAbs / 10 ^ de * 10 ^ de =
          10 ^ de * (dm.natAbs / 10 ^ de) := Nat.mul_comm _ _
      omega

theorem parseStringBody_escape :
    ∀ (s rest : List Char),
      parseStringBody (escapeList s ++ '"' :: rest) = some (s, rest) := by
  intro s
  induction s with
  | nil =>
    intro rest
    rw [escapeList, List.nil_append, parseStringBody.eq_def]
    dsimp only
    rw [if_pos rfl]
  | cons c cs ih =>
    intro rest
    rw [escapeList]
    unfold escapeChar
    by_cases h1 : c = '"'
    · rw [if_pos h1]
      subst h1
      simp only [List.cons_append, List.nil_append]
      rw [parseStringBody.eq_def]
      dsimp only
      rw [if_neg (by decide), if_pos rfl, if_neg (by decide), ih]
      rfl
    · rw [if_neg h1]
      by_cases h2 : c = '\\'
      · rw [if_pos h2]
        subst h2
        simp only [List.cons_append, List.nil_append]
        rw [parseStringBody.eq_def]
        dsimp only
        rw [if_neg (by decide), if_pos rfl, if_neg (by decide), ih]
        rfl
      · rw [if_neg h2]
        by_cases h3 : c = '\n'
        · rw [if_pos h3]
          subst h3
          simp only [List.cons_append, List.nil_append]
          rw [parseStringBody.eq_def]
          dsimp only
          rw [if_neg (by decide), if_pos rfl, if_neg (by decide), ih]
          rfl
        · rw [if_neg h3]
          by_cases h4 : c = '\t'
          · rw [if_pos h4]
            subst h4
            simp only [List.cons_append, List.nil_append]
            rw [parseStringBody.eq_def]
            dsimp only
            rw [if_neg (by decide), if_pos rfl, if_neg (by decide), ih]
            rfl
          · rw [if_neg h4]
            by_cases h5 : c = '\r'
            · rw [if_pos h5]
              subst h5
              simp only [List.cons_append, List.nil_append]
              rw [parseStringBody.eq_def]
              dsimp only
              rw [if_neg (by decide), if_pos rfl, if_neg (by decide), ih]
              rfl
            · rw [if_neg h5]
              by_cases h6 : c.toNat = 8
              · rw [if_pos h6]
                have hc : c = Char.ofNat 8 := by
                  rw [← h6, Char.ofNat_toNat]
                simp only [List.cons_append, List.nil_append]
                rw [parseStringBody.eq_def]
                dsimp only
                rw [if_neg (by decide), if_pos rfl, if_neg (by decide), ih, hc]
                rfl
              · rw [if_neg h6]
                by_cases h7 : c.toNat = 12
                · rw [if_pos h7]
                  have hc : c = Char.ofNat 12 := by
                    rw [← h7, Char.ofNat_toNat]
                  simp only [List.cons_append, List.nil_append]
                  rw [parseStringBody.eq_def]
                  dsimp only
                  rw [if_neg (by decide), if_pos rfl, if_neg (by decide), ih, hc]
                  rfl
                · rw [if_neg h7]
                  by_cases h8 : c.toNat < 32
                  · rw [if_pos h8]
                    simp only [List.cons_append, List.nil_append]
                    rw [parseStringBody.eq_def]
                    dsimp only
                    rw [if_neg (by decide), if_pos rfl, if_pos rfl]
                    rw [show hexVal '0' = some 0 from rfl]
                    rw [hexVal_hexDigitChar (by omega : c.toNat / 16 < 16)]
                    rw [hexVal_hexDigitChar (by omega : c.toNat % 16 < 16)]
                    dsimp only
                    rw [show ((0 * 16 + 0) * 16 + c.toNat / 16) * 16 +
                        c.toNat % 16 = c.toNat by omega]
                    rw [if_neg (by omega)]
                    rw [ih, Char.ofNat_toNat]
                  · rw [if_neg h8]
                    simp only [List.cons_append, List.nil_append]
                    rw [parseStringBody.eq_def]
                    dsimp only
                    rw [if_neg h1, if_neg h2]
                    rw [ih]

theorem allWs_nil : allWs [] := by
  intro c hc
  cases hc

theorem allWs_cons {c : Char} {w : List Char} (hc : isWsChar c = true)
    (hw : allWs w) : allWs (c :: w) := by
  intro d hd
  rcases List.mem_cons.mp hd with h | h
  · rw [h]; exact hc
  · exact hw d h

theorem skipWs_ws_cons {w : List Char} {c : Char} (s : List Char) (hw : allWs w)
    (hc : isWsChar c = false) : skipWs (w ++ c :: s) = c :: s := by
  rw [skipWs_append_ws _ hw, skipWs_cons_not_ws _ hc]

theorem parseValue_ws (fuel : Nat) {w : List Char} (s : List Char)
    (hw : allWs w) : parseValue fuel (w ++ s) = parseValue fuel s := by
  cases fuel with
  | zero => rfl
  | succ fuel => simp only [parseValue, skipWs_append_ws s hw]

theorem parseElems_ws (fuel : Nat) {w : List Char} (s : List Char)
    (hw : allWs w) : parseElems fuel (w ++ s) = parseElems fuel s := by
  cases fuel with
  | zero => rfl
  | succ fuel => simp only [parseElems, parseValue_ws fuel s hw]

theorem parseFields_ws (fuel : Nat) {w : List Char} (s : List Char)
    (hw : allWs w) : parseFields fuel (w ++ s) = parseFields fuel s := by
  cases fuel with
  | zero => rfl
  | succ fuel => simp only [parseFields, skipWs_append_ws s hw]

theorem decRender_head (d : Dec) :
    ∃ c t, decRender d = c :: t ∧ (c = '-' ∨ isDigitChar c = true) := by
  obtain ⟨dm, de⟩ := d
  unfold decRender
  dsimp only
  by_cases hexp : de = 0
  · rw [if_pos hexp]
    by_cases hneg : dm < 0
    · rw [if_pos hneg]
      exact ⟨'-', natToDigits dm.natAbs, rfl, Or.inl rfl⟩
    · rw [if_neg hneg, List.nil_append]
      cases hnd : natToDigits dm.natAbs with
      | nil => exact absurd hnd (natToDigits_ne_nil _)
      | cons c t =>
        refine ⟨c, t, rfl, Or.inr ?_⟩
        exact natToDigits_all_digits dm.natAbs c (by rw [hnd]; simp)
  · rw [if_neg hexp]
    by_cases hneg : dm < 0
    · rw [if_pos hneg]
      exact ⟨'-', _, rfl, Or.inl rfl⟩
    · rw [if_neg hneg, List.nil_append]
      cases hnd : natToDigits (dm.natAbs / 10 ^ de) with
      | nil => exact absurd hnd (natToDigits_ne_nil _)
      | cons c t =>
        refine ⟨c, _, by rw [List.cons_append], Or.inr ?_⟩
        exact natToDigits_all_digits _ c (by rw [hnd]; simp)

theorem numHead_ne {c : Char} (h : c = '-' ∨ isDigitChar c = true) :
    isWsChar c = false ∧ c ≠ '"' ∧ c ≠ '[' ∧ c ≠ '\x7b' ∧ c ≠ ']' ∧
      c ≠ '\x7d' := by
  rcases h with h | h
  · subst h
    exact ⟨by decide, by decide, by decide, by decide, by decide, by decide⟩
  · obtain ⟨_, _, h3, h4, h5, h6, h7, h8⟩ := digit_ne h
    exact ⟨h8, h3, h4, h5, h6, h7⟩

theorem renderJson_head (j : Json) (k : Nat) :
    ∃ c t, renderJson j k = c :: t ∧ isWsChar c = false ∧ c ≠ ']' ∧
      c ≠ '\x7d' := by
  cases j with
  | str s =>
    exact ⟨'"', escapeList s.data ++ ['"'], by simp [renderJson], by decide,
      by decide, by decide⟩
  | num d =>
    obtain ⟨c, t, he, hc⟩ := decRender_head d
    obtain ⟨h1, _, _, _, h5, h6⟩ := numHead_ne hc
    exact ⟨c, t, by rw [show renderJson (.num d) k = decRender d from by
      simp [renderJson], he], h1, h5, h6⟩
  | arr xs =>
    cases xs with
    | nil => exact ⟨'[', [']'], by simp [renderJson], by decide, by decide,
        by decide⟩
    | cons x xs =>
      exact ⟨'[', '\n' :: (indentChars (k+1) ++ renderElems (x :: xs) (k+1) ++
        '\n' :: (indentChars k ++ [']'])), by simp [renderJson], by decide,
        by decide, by decide⟩
  | obj fs =>
    cases fs with
    | nil => exact ⟨'\x7b', ['\x7d'], by simp [renderJson], by decide,
        by decide, by decide⟩
    | cons f fs =>
      exact ⟨'\x7b', '\n' :: (indentChars (k+1) ++ renderFields (f :: fs) (k+1) ++
        '\n' :: (indentChars k ++ ['\x7d'])), by simp [renderJson], by decide,
        by decide, by decide⟩

theorem renderElems_head (x : Json) (xs : List Json) (k : Nat) :
    ∃ c t, renderElems (x :: xs) k = c :: t ∧ isWsChar c = false ∧ c ≠ ']' ∧
      c ≠ '\x7d' := by
  obtain ⟨c, t, he, h1, h2, h3⟩ := renderJson_head x k
  cases xs with
  | nil => exact ⟨c, t, by rw [show renderElems [x] k = renderJson x k from by
      simp [renderElems], he], h1, h2, h3⟩
  | cons y ys =>
    refine ⟨c, t ++ ',' :: '\n' :: (indentChars k ++ renderElems (y :: ys) k),
      ?_, h1, h2, h3⟩
    rw [show renderElems (x :: y :: ys) k = renderJson x k ++
      ',' :: '\n' :: (indentChars k ++ renderElems (y :: ys) k) from by
      simp [renderElems], he, List.cons_append]

theorem renderFields_head (f : String × Json) (fs : List (String × Json))
    (k : Nat) : ∃ t, renderFields (f :: fs) k = '"' :: t := by
  obtain ⟨key, v⟩ := f
  cases fs with
  | nil =>
    exact ⟨escapeList key.data ++ '"' :: ':' :: ' ' :: renderJson v k,
      by simp [renderFields, renderField]⟩
  | cons g gs =>
    refine ⟨(escapeList key.data ++ '"' :: ':' :: ' ' :: renderJson v k) ++
      ',' :: '\n' :: (indentChars k ++ renderFields (g :: gs) k), ?_⟩
    rw [show renderFields ((key, v) :: g :: gs) k = renderField (key, v) k ++
      ',' :: '\n' :: (indentChars k ++ renderFields (g :: gs) k) from by
      simp [renderFields]]
    rw [show renderField (key, v) k =
      '"' :: (escapeList key.data ++ '"' :: ':' :: ' ' :: renderJson v k) from by
      simp [renderField], List.cons_append]

theorem sizeV_pos (j : Json) : 1 ≤ sizeV j := by
  cases j with
  | str s => simp [sizeV]
  | num d => simp [sizeV]
  | arr xs => simp [sizeV]
  | obj fs => simp [sizeV]

theorem parse_render : ∀ (fuel : Nat),
    (∀ (j : Json) (k : Nat) (rest : List Char), sizeV j ≤ fuel →
      noNumHead rest →
      parseValue fuel (renderJson j k ++ rest) = some (j, rest)) ∧
    (∀ (x : Json) (xs : List Json) (k : Nat) (w rest : List Char), allWs w →
      sizeE (x :: xs) ≤ fuel →
      parseElems fuel (renderElems (x :: xs) k ++ '\n' :: (w ++ ']' :: rest)) =
        some (x :: xs, rest)) ∧
    (∀ (f : String × Json) (fs : List (String × Json)) (k : Nat)
      (w rest : List Char), allWs w → sizeF (f :: fs) ≤ fuel →
      parseFields fuel
        (renderFields (f :: fs) k ++ '\n' :: (w ++ '\x7d' :: rest)) =
        some (f :: fs, rest)) := by
  intro fuel
  induction fuel with
  | zero =>
    refine ⟨?_, ?_, ?_⟩
    · intro j k rest hsz _
      have := sizeV_pos j
      omega
    · intro x xs k w rest _ hsz
      rw [sizeE] at hsz
      omega
    · intro f fs k w rest _ hsz
      obtain ⟨key, v⟩ := f
      rw [sizeF] at hsz
      omega
  | succ fuel ih =>
    obtain ⟨IHV, IHE, IHF⟩ := ih
    refine ⟨?_, ?_, ?_⟩
    · intro j k rest hsz hrest
      cases j with
      | str s =>
        rw [show renderJson (.str s) k = '"' :: (escapeList s.data ++ ['"'])
          from by simp [renderJson]]
        simp only [List.cons_append, List.append_assoc, List.singleton_append,
          List.nil_append]
        rw [parseValue, skipWs_cons_not_ws _ (by decide)]
        dsimp only
        rw [if_pos rfl, parseStringBody_escape s.data rest]
      | num d =>
        obtain ⟨c, t, he, hc⟩ := decRender_head d
        obtain ⟨hw1, hq, hlb, hob, _, _⟩ := numHead_ne hc
        rw [show renderJson (.num d) k = decRender d from by simp [renderJson],
          he, List.cons_append, parseValue, skipWs_cons_not_ws _ hw1]
        dsimp only
        rw [if_neg hq, if_neg hlb, if_neg hob, if_pos hc]
        rw [show c :: (t ++ rest) = decRender d ++ rest from by
          rw [he, List.cons_append]]
        rw [parseNumber_decRender d rest hrest]
      | arr xs =>
        cases xs with
        | nil =>
          rw [show renderJson (.arr []) k ++ rest = '[' :: ']' :: rest from by
            simp [renderJson]]
          rw [parseValue, skipWs_cons_not_ws _ (by decide)]
          dsimp only
          rw [if_neg (by decide), if_pos rfl]
          rw [skipWs_cons_not_ws _ (by decide)]
          rw [if_pos (show headIs ']' (']' :: rest) = true from by
            simp [headIs])]
          rfl
        | cons x xs =>
          have hsz2 : sizeE (x :: xs) ≤ fuel := by
            rw [sizeV] at hsz
            omega
          obtain ⟨c, t, he, hc1, hc2, _⟩ := renderElems_head x xs (k+1)
          rw [show renderJson (.arr (x :: xs)) k =
            '[' :: '\n' :: (indentChars (k+1) ++ renderElems (x :: xs) (k+1) ++
              '\n' :: (indentChars k ++ [']'])) from by simp [renderJson]]
          simp only [List.cons_append, List.append_assoc, List.singleton_append,
            List.nil_append]
          rw [parseValue, skipWs_cons_not_ws _ (by decide)]
          dsimp only
          rw [if_neg (by decide), if_pos rfl]
          rw [show ('\n' : Char) :: (indentChars (k+1) ++
              (renderElems (x :: xs) (k+1) ++
                '\n' :: (indentChars k ++ ']' :: rest))) =
            ('\n' :: indentChars (k+1)) ++ (renderElems (x :: xs) (k+1) ++
              '\n' :: (indentChars k ++ ']' :: rest)) from rfl]
          rw [skipWs_append_ws _ (allWs_newline_indent (k+1))]
          rw [he, List.cons_append, skipWs_cons_not_ws _ hc1]
          rw [headIs_false_of_ne _ hc2]
          rw [if_neg (show ¬(false = true) from by decide)]
          rw [show c :: (t ++ ('\n' :: (indentChars k ++ ']' :: rest))) =
            renderElems (x :: xs) (k+1) ++
              '\n' :: (indentChars k ++ ']' :: rest) from by
            rw [he, List.cons_append]]
          rw [IHE x xs (k+1) (indentChars k) rest (allWs_indent k) hsz2]
      | obj fs =>
        cases fs with
        | nil =>
          rw [show renderJson (.obj []) k ++ rest = '\x7b' :: '\x7d' :: rest
            from by simp [renderJson]]
          rw [parseValue, skipWs_cons_not_ws _ (by decide)]
          dsimp only
          rw [if_neg (by decide), if_neg (by decide), if_pos rfl]
          rw [skipWs_cons_not_ws _ (by decide)]
          rw [if_pos (show headIs '\x7d' ('\x7d' :: rest) = true from by
            simp [headIs])]
          rfl
        | cons f fs =>
          have hsz2 : sizeF (f :: fs) ≤ fuel := by
            rw [sizeV] at hsz
            omega
          obtain ⟨t, he⟩ := renderFields_head f fs (k+1)
          rw [show renderJson (.obj (f :: fs)) k =
            '\x7b' :: '\n' :: (indentChars (k+1) ++
              renderFields (f :: fs) (k+1) ++
              '\n' :: (indentChars k ++ ['\x7d'])) from by simp [renderJson]]
          simp only [List.cons_append, List.append_assoc, List.singleton_append,
            List.nil_append]
          rw [parseValue, skipWs_cons_not_ws _ (by decide)]
          dsimp only
          rw [if_neg (by decide), if_neg (by decide), if_pos rfl]
          rw [show ('\n' : Char) :: (indentChars (k+1) ++
              (renderFields (f :: fs) (k+1) ++
                '\n' :: (indentChars k ++ '\x7d' :: rest))) =
            ('\n' :: indentChars (k+1)) ++ (renderFields (f :: fs) (k+1) ++
              '\n' :: (indentChars k ++ '\x7d' :: rest)) from rfl]
          rw [skipWs_append_ws _ (allWs_newline_indent (k+1))]
          rw [he, List.cons_append, skipWs_cons_not_ws _ (by decide)]
          rw [headIs_false_of_ne _ (by decide)]
          rw [if_neg (show ¬(false = true) from by decide)]
          rw [show ('"' : Char) :: (t ++
              ('\n' :: (indentChars k ++ '\x7d' :: rest))) =
            renderFields (f :: fs) (k+1) ++
              '\n' :: (indentChars k ++ '\x7d' :: rest) from by
            rw [he, List.cons_append]]
          rw [IHF f fs (k+1) (indentChars k) rest (allWs_indent k) hsz2]
    · intro x xs k w rest hw hsz
      have hszx : sizeV x ≤ fuel := by
        rw [sizeE] at hsz
        have := Nat.le_max_left (sizeV x) (sizeE xs)
        omega
      cases xs with
      | nil =>
        rw [show renderElems [x] k = renderJson x k from by simp [renderElems]]
        rw [parseElems]
        rw [IHV x k ('\n' :: (w ++ ']' :: rest)) hszx ⟨by decide, by decide⟩]
        dsimp only
        rw [show ('\n' : Char) :: (w ++ ']' :: rest) =
          ('\n' :: w) ++ ']' :: rest from rfl]
        rw [skipWs_ws_cons _ (allWs_cons (by decide) hw) (by decide)]
        rfl
      | cons y ys =>
        have hsz2 : sizeE (y :: ys) ≤ fuel := by
          rw [sizeE] at hsz
          have := Nat.le_max_right (sizeV x) (sizeE (y :: ys))
          omega
        rw [show renderElems (x :: y :: ys) k = renderJson x k ++
          ',' :: '\n' :: (indentChars k ++ renderElems (y :: ys) k) from by
          simp [renderElems]]
        simp only [List.cons_append, List.append_assoc, List.nil_append]
        rw [parseElems]
        rw [IHV x k (',' :: '\n' :: (indentChars k ++ (renderElems (y :: ys) k ++
          '\n' :: (w ++ ']' :: rest)))) hszx ⟨by decide, by decide⟩]
        dsimp only
        rw [skipWs_cons_not_ws _ (by decide)]
        simp only []
        rw [show ('\n' : Char) :: (indentChars k ++ (renderElems (y :: ys) k ++
            '\n' :: (w ++ ']' :: rest))) =
          ('\n' :: indentChars k) ++ (renderElems (y :: ys) k ++
            '\n' :: (w ++ ']' :: rest)) from rfl]
        rw [parseElems_ws fuel _ (allWs_newline_indent k)]
        rw [IHE y ys k w rest hw hsz2]
    · intro f fs k w rest hw hsz
      obtain ⟨key, v⟩ := f
      have hszv : sizeV v ≤ fuel := by
        rw [sizeF] at hsz
        have := Nat.le_max_left (sizeV v) (sizeF fs)
        omega
      cases fs with
      | nil =>
        rw [show renderFields [(key, v)] k = '"' :: (escapeList key.data ++
          '"' :: ':' :: ' ' :: renderJson v k) from by
          simp [renderFields, renderField]]
        simp only [List.cons_append, List.append_assoc, List.nil_append]
        rw [parseFields, skipWs_cons_not_ws _ (by decide)]
        simp only []
        rw [parseStringBody_escape key.data
          (':' :: ' ' :: (renderJson v k ++ '\n' :: (w ++ '\x7d' :: rest)))]
        simp only []
        rw [skipWs_cons_not_ws _ (by decide)]
        simp only []
        rw [show (' ' : Char) :: (renderJson v k ++
            '\n' :: (w ++ '\x7d' :: rest)) =
          [' '] ++ (renderJson v k ++ '\n' :: (w ++ '\x7d' :: rest)) from rfl]
        rw [parseValue_ws fuel _ (allWs_cons (by decide) allWs_nil)]
        rw [IHV v k ('\n' :: (w ++ '\x7d' :: rest)) hszv ⟨by decide, by decide⟩]
        simp only []
        rw [show ('\n' : Char) :: (w ++ '\x7d' :: rest) =
          ('\n' :: w) ++ '\x7d' :: rest from rfl]
        rw [skipWs_ws_cons _ (allWs_cons (by decide) hw) (by decide)]
        rfl
      | cons g gs =>
        have hsz2 : sizeF (g :: gs) ≤ fuel := by
          rw [sizeF] at hsz
          have := Nat.le_max_right (sizeV v) (sizeF (g :: gs))
          omega
        rw [show renderFields ((key, v) :: g :: gs) k =
          ('"' :: (escapeList key.data ++ '"' :: ':' :: ' ' :: renderJson v k)) ++
          ',' :: '\n' :: (indentChars k ++ renderFields (g :: gs) k) from by
          simp [renderFields, renderField]]
        simp only [List.cons_append, List.append_assoc, List.nil_append]
        rw [parseFields, skipWs_cons_not_ws _ (by decide)]
        simp only []
        rw [parseStringBody_escape key.data
          (':' :: ' ' :: (renderJson v k ++ ',' :: '\n' :: (indentChars k ++
            (renderFields (g :: gs) k ++ '\n' :: (w ++ '\x7d' :: rest)))))]
        simp only []
        rw [skipWs_cons_not_ws _ (by decide)]
        simp only []
        rw [show (' ' : Char) :: (renderJson v k ++ ',' :: '\n' ::
            (indentChars k ++ (renderFields (g :: gs) k ++
              '\n' :: (w ++ '\x7d' :: rest)))) =
          [' '] ++ (renderJson v k ++ ',' :: '\n' :: (indentChars k ++
            (renderFields (g :: gs) k ++ '\n' :: (w ++ '\x7d' :: rest))))
          from rfl]
        rw [parseValue_ws fuel _ (allWs_cons (by decide) allWs_nil)]
        rw [IHV v k (',' :: '\n' :: (indentChars k ++
          (renderFields (g :: gs) k ++ '\n' :: (w ++ '\x7d' :: rest)))) hszv
          ⟨by decide, by decide⟩]
        simp only []
        rw [skipWs_cons_not_ws _ (by decide)]
        simp only []
        rw [show ('\n' : Char) :: (indentChars k ++
            (renderFields (g :: gs) k ++ '\n' :: (w ++ '\x7d' :: rest))) =
          ('\n' :: indentChars k) ++ (renderFields (g :: gs) k ++
            '\n' :: (w ++ '\x7d' :: rest)) from rfl]
        rw [parseFields_ws fuel _ (allWs_newline_indent k)]
        rw [IHF g gs k w rest hw hsz2]

mutual

theorem sizeV_le_len : ∀ (j : Json) (k : Nat), sizeV j ≤ (renderJson j k).length
  | .str s, k => by
    simp [sizeV, renderJson]
  | .num d, k => by
    obtain ⟨c, t, he, _⟩ := decRender_head d
    simp [sizeV, renderJson, he]
  | .arr [], k => by
    simp [sizeV, sizeE, renderJson]
  | .arr (x :: xs), k => by
    have h := sizeE_le_len (x :: xs) (k+1)
    simp only [sizeV, renderJson, List.length_cons, List.length_append]
    omega
  | .obj [], k => by
    simp [sizeV, sizeF, renderJson]
  | .obj (f :: fs), k => by
    have h := sizeF_le_len (f :: fs) (k+1)
    simp only [sizeV, renderJson, List.length_cons, List.length_append]
    omega
termination_by j _ => sizeOf j

theorem sizeE_le_len : ∀ (xs : List Json) (k : Nat),
    sizeE xs ≤ (renderElems xs k).length + 1
  | [], _ => by simp [sizeE]
  | [x], k => by
    have h := sizeV_le_len x k
    simp only [sizeE, renderElems, Nat.max_eq_left (Nat.zero_le _)]
    omega
  | x :: y :: ys, k => by
    have h1 := sizeV_le_len x k
    have h2 := sizeE_le_len (y :: ys) k
    rw [sizeE]
    simp only [renderElems, List.length_append, List.length_cons]
    have hm : max (sizeV x) (sizeE (y :: ys)) ≤
        (renderJson x k).length + (renderElems (y :: ys) k).length + 1 :=
      Nat.max_le.mpr ⟨by omega, by omega⟩
    omega
termination_by xs _ => sizeOf xs

theorem sizeF_le_len : ∀ (fs : List (String × Json)) (k : Nat),
    sizeF fs ≤ (renderFields fs k).length + 1
  | [], _ => by simp [sizeF]
  | [(key, v)], k => by
    have h := sizeV_le_len v k
    simp only [sizeF, renderFields, renderField, List.length_cons,
      List.length_append, Nat.max_eq_left (Nat.zero_le _)]
    omega
  | (key, v) :: g :: gs, k => by
    have h1 := sizeV_le_len v k
    have h2 := sizeF_le_len (g :: gs) k
    rw [sizeF]
    simp only [renderFields, renderField, List.length_append,
      List.length_cons]
    have hm : max (sizeV v) (sizeF (g :: gs)) ≤
        (renderJson v k).length + (renderFields (g :: gs) k).length + 1 :=
      Nat.max_le.mpr ⟨by omega, by omega⟩
    omega
termination_by fs _ => sizeOf fs

end

theorem jsonParse_render (j : Json) : jsonParse ⟨renderJson j 0⟩ = some j := by
  have hv := (parse_render ((renderJson j 0).length + 1)).1 j 0 []
    (Nat.le_succ_of_le (sizeV_le_len j 0)) trivial
  rw [List.append_nil] at hv
  unfold jsonParse
  rw [show (String.mk (renderJson j 0)).data = renderJson j 0 from rfl, hv]
  rfl

theorem decodeNode_nodeJson (n : Node) : decodeNode (nodeJson n) = some n := rfl

theorem decodeEdge_edgeJson (e : Edge) : decodeEdge (edgeJson e) = some e := rfl

theorem mapM_decodeNode :
    ∀ (l : List Node), (l.map nodeJson).mapM decodeNode = some l
  | [] => rfl
  | n :: l => by
    rw [List.map_cons, List.mapM_cons, decodeNode_nodeJson n, mapM_decodeNode l]
    rfl

theorem mapM_decodeEdge :
    ∀ (l : List Edge), (l.map edgeJson).mapM decodeEdge = some l
  | [] => rfl
  | e :: l => by
    rw [List.map_cons, List.mapM_cons, decodeEdge_edgeJson e, mapM_decodeEdge l]
    rfl

theorem decodeNodeList_graphJson (g : FormattedGraph) :
    decodeNodeList (graphJson g) = some g.nodes := by
  unfold decodeNodeList
  rw [show jsonField (graphJson g) "nodes" =
    some (.arr (g.nodes.map nodeJson)) from rfl]
  simp only []
  rw [mapM_decodeNode g.nodes]

theorem decodeEdgeList_graphJson (g : FormattedGraph) :
    decodeEdgeList (graphJson g) = some g.edges := by
  unfold decodeEdgeList
  rw [show jsonField (graphJson g) "edges" =
    some (.arr (g.edges.map edgeJson)) from rfl]
  simp only []
  rw [mapM_decodeEdge g.edges]

/-- C9: exporting a formatted graph in the `json` format succeeds, parsing the
produced text recovers exactly the serialized JSON value, and reading the node
and edge arrays back out of that value reproduces the graph's node list and
edge list element for element, in order. -/
theorem claim_C9_json_roundtrip (g : FormattedGraph) :
    ∃ s, exportGraph g "json" = .ok s ∧ jsonParse s = some (graphJson g) ∧
      decodeNodeList (graphJson g) = some g.nodes ∧
      decodeEdgeList (graphJson g) = some g.edges :=
  ⟨⟨renderJson (graphJson g) 0⟩, rfl, jsonParse_render (graphJson g),
    decodeNodeList_graphJson g, decodeEdgeList_graphJson g⟩

theorem claim_C8_witness :
    exportGraph c5g "xml" = .error ("Unsupported format: " ++ "xml") :=
  (claim_C8_export_formats c5g "xml").2 (by decide)
